import Mathlib

/-!
Verification development for the item-level lowering stage of the Verus
front end (`rust_verify/src/rust_to_vir.rs`): a shallow embedding of
`check_item`, `trait_impl_to_vir`, `collect_external_trait_impls` and
`crate_to_vir`, together with theorems settling the specification claims
about module externalization, trait-implementation deduplication, the
harvester safety filter, error totality, and the external bookkeeping.

Collaborators living outside the embedded source file (the rustc type
oracle, attribute parsing, function/datatype/trait lowering, the
reveal-hide resolver, and the external-impl type filters) are modelled
from the specification, as fields of an explicit oracle `Context` or as
definitions whose doc comment identifies them as spec-modelled.
-/

namespace Verus

/-- Rust compiler `DefId`, an opaque identifier of a declaration. -/
abbrev DefId := Nat

/-- Source span, abstracted to an identifier. -/
abbrev Span := Nat

abbrev Ident := String

/-- VIR `Path`: ordered name segments canonically identifying an entity. -/
abbrev Path := List String

/-- VIR `Fun` identity (`FunX { path }`). -/
abbrev Fun := Path

/-- `Path::pop_segment`: drop the final segment. -/
def Path.popSegment (p : Path) : Path := p.dropLast

/-- `Path::last_segment`. -/
def Path.lastSegment (p : Path) : Ident := p.getLastD ""

/-- Semantic (rustc middle) types, as far as this lowering inspects them:
algebraic datatypes applied to type arguments, type parameters, the never
type, and primitives (with a flag recording whether the primitive is one of
the built-in forms the verifier recognizes). -/
inductive Ty where
  | adt (did : DefId) (args : List Ty)
  | param (n : String)
  | never
  | prim (recognized : Bool) (code : Nat)

mutual
/-- All type nodes reachable from a type (the `walk()` of a type). -/
def Ty.walk : Ty → List Ty
  | .adt d args => .adt d args :: Ty.walkListAux args
  | t => [t]
/-- All type nodes reachable from a list of types. -/
def Ty.walkListAux : List Ty → List Ty
  | [] => []
  | t :: ts => t.walk ++ Ty.walkListAux ts
end

mutual
def Ty.decEqAux : (a b : Ty) → Decidable (a = b)
  | .adt d₁ a₁, .adt d₂ a₂ =>
    match Nat.decEq d₁ d₂ with
    | isTrue h₁ =>
      match Ty.decEqListAux a₁ a₂ with
      | isTrue h₂ => isTrue (by rw [h₁, h₂])
      | isFalse h₂ => isFalse (by intro h; cases h; exact h₂ rfl)
    | isFalse h₁ => isFalse (by intro h; cases h; exact h₁ rfl)
  | .adt _ _, .param _ => isFalse (by intro h; cases h)
  | .adt _ _, .never => isFalse (by intro h; cases h)
  | .adt _ _, .prim _ _ => isFalse (by intro h; cases h)
  | .param _, .adt _ _ => isFalse (by intro h; cases h)
  | .param n₁, .param n₂ =>
    match decEq n₁ n₂ with
    | isTrue h => isTrue (by rw [h])
    | isFalse h => isFalse (by intro hh; cases hh; exact h rfl)
  | .param _, .never => isFalse (by intro h; cases h)
  | .param _, .prim _ _ => isFalse (by intro h; cases h)
  | .never, .adt _ _ => isFalse (by intro h; cases h)
  | .never, .param _ => isFalse (by intro h; cases h)
  | .never, .never => isTrue rfl
  | .never, .prim _ _ => isFalse (by intro h; cases h)
  | .prim _ _, .adt _ _ => isFalse (by intro h; cases h)
  | .prim _ _, .param _ => isFalse (by intro h; cases h)
  | .prim _ _, .never => isFalse (by intro h; cases h)
  | .prim r₁ c₁, .prim r₂ c₂ =>
    match decEq r₁ r₂, decEq c₁ c₂ with
    | isTrue h₁, isTrue h₂ => isTrue (by rw [h₁, h₂])
    | isFalse h₁, _ => isFalse (by intro h; cases h; exact h₁ rfl)
    | _, isFalse h₂ => isFalse (by intro h; cases h; exact h₂ rfl)
def Ty.decEqListAux : (a b : List Ty) → Decidable (a = b)
  | [], [] => isTrue rfl
  | [], _ :: _ => isFalse (by intro h; cases h)
  | _ :: _, [] => isFalse (by intro h; cases h)
  | a :: as, b :: bs =>
    match Ty.decEqAux a b, Ty.decEqListAux as bs with
    | isTrue h₁, isTrue h₂ => isTrue (by rw [h₁, h₂])
    | isFalse h₁, _ => isFalse (by intro h; cases h; exact h₁ rfl)
    | _, isFalse h₂ => isFalse (by intro h; cases h; exact h₂ rfl)
end

instance : DecidableEq Ty := Ty.decEqAux

/-- `TyKind::Adt` with every generic type argument replaced by the never
type (the "apply `!` to all type parameters" step of the structural-marker
check); `none` models the `panic!("Structural impl for non-adt type")`
taken for any non-ADT self type. -/
def Ty.appliedNever : Ty → Option Ty
  | .adt did args => some (.adt did (args.map fun _ => .never))
  | _ => none

/-- Debug rendering of a type (the `{:?}` formatting used in the
structural-marker error message). -/
def Ty.debugStr : Ty → String
  | .adt did args => "Adt(" ++ toString did ++ "," ++ toString args.length ++ ")"
  | .param n => "Param(" ++ n ++ ")"
  | .never => "Never"
  | .prim _ c => "Prim(" ++ toString c ++ ")"

/-- The structured verifier-attribute record (produced by the attribute
parsing collaborator; consumed here). -/
structure VerifierAttrs where
  external : Bool := false
  external_body : Bool := false
  external_fn_specification : Bool := false
  external_type_specification : Bool := false
  external_trait_specification : Bool := false
  internal_reveal_fn : Bool := false
  item_broadcast_use : Bool := false
  size_of_global : Bool := false
deriving DecidableEq

/-- Modelled from the spec: the attribute classifier's is-external decision
(`vattrs.is_external(&ctxt.cmd_line_args)`; attribute parsing is an external
collaborator).  Here the decision is the declaration's external flag. -/
def VerifierAttrs.is_external (a : VerifierAttrs) : Bool := a.external

/-- The `RustItem`s this lowering distinguishes. -/
inductive RustItem where
  | fnTrait | fnOnce | fnMut
  | structuralEqTrait | structuralPartialEqTrait | partialEqTrait | eqTrait
  | otherRust (n : Nat)
deriving DecidableEq

/-- The `VerusItem`s this lowering distinguishes. -/
inductive VerusItem where
  | markerStructural
  | directiveRevealHide
  | otherVerus (n : Nat)
deriving DecidableEq

/-- A call expression (target already resolved to a `DefId`). -/
structure CallExpr where
  funTarget : DefId
  args : List Nat
deriving DecidableEq

/-- A statement of a constant body, as far as the broadcast-use
interception inspects it: a `Semi` statement whose expression is a call
with a path-resolved target, or anything else. -/
inductive Stmt where
  | semiCall (c : CallExpr)
  | otherStmt
deriving DecidableEq

/-- A constant/static body: a block of statements, or some other shape. -/
inductive FnBody where
  | block (stmts : List Stmt)
  | otherBody
deriving DecidableEq

/-- The self type of an impl block, as far as the structural-marker check
inspects it: a path resolved to a `DefId`, or anything else (which makes
that check panic). -/
inductive SelfTy where
  | resolvedPath (did : DefId)
  | otherSelfTy
deriving DecidableEq

/-- `rustc_hir::AssocItemKind` of an impl item reference. -/
inductive AssocItemKind where
  | fn (hasSelf : Bool)
  | type
  | otherAssoc
deriving DecidableEq

/-- The shape of the impl item found behind an item reference
(`ImplItemKind`). -/
inductive ImplItemKindD where
  | fn
  | typeItem
  | otherImplItem
deriving DecidableEq

/-- An item reference inside an impl block, with the data the lowering
reads off the referenced impl item. -/
structure ImplItemRef where
  did : DefId
  ident : Ident
  span : Span
  kind : AssocItemKind
  itemKind : ImplItemKindD
  genericsPreds : Nat
  hasWhereClause : Bool
  vattrs : VerifierAttrs
deriving DecidableEq

/-- A trait reference `impl Trait for ...`, resolved to the trait's id. -/
structure TraitRefD where
  traitDefId : DefId
deriving DecidableEq

/-- An impl block (`rustc_hir::Impl`), as far as this lowering reads it. -/
structure ImplBlock where
  unsafety : Bool
  ofTrait : Option TraitRefD
  selfTy : SelfTy
  items : List ImplItemRef
deriving DecidableEq

/-- Syntactic kind of a declaration (`rustc_hir::ItemKind`), with exactly
the shapes the embedded match distinguishes; `otherItem` stands for every
form the match does not explicitly recognize. -/
inductive ItemKind where
  | fn (specTarget : Option DefId)
  | useDecl
  | externCrate
  | modDecl
  | foreignMod
  | structDecl
  | enumDecl
  | unionDecl
  | implBlock (impll : ImplBlock)
  | constDecl (genericsParams : Nat) (genericsPreds : Nat) (body : FnBody)
  | staticDecl (isMut : Bool) (body : FnBody)
  | macroDecl
  | traitDecl (isAuto : Bool) (unsafety : Bool) (methods : List Ident) (assocTypBounds : Nat)
  | tyAlias
  | globalAsm
  | opaqueTy (asyncOrigin : Bool)
  | otherItem (code : Nat)
deriving DecidableEq

def ItemKind.isFn : ItemKind → Bool
  | .fn _ => true
  | _ => false

def ItemKind.isStruct : ItemKind → Bool
  | .structDecl => true
  | _ => false

def ItemKind.isEnum : ItemKind → Bool
  | .enumDecl => true
  | _ => false

/-- A declaration, with its attribute record already materialized. -/
structure Item where
  did : DefId
  span : Span
  vattrs : VerifierAttrs
  kind : ItemKind
deriving DecidableEq

/-- The lexical nesting tree of declarations (what the HIR visitor
traverses): an item together with the items nested inside it. -/
inductive ItemTree where
  | mk (item : Item) (children : List ItemTree)

def ItemTree.itemOf : ItemTree → Item
  | .mk i _ => i

def ItemTree.childrenOf : ItemTree → List ItemTree
  | .mk _ cs => cs

mutual
/-- Pre-order enumeration of a nesting tree: the item itself first, then
its nested items (exactly the order `VisitMod` pushes item ids). -/
def ItemTree.preorder : ItemTree → List ItemTree
  | .mk i cs => .mk i cs :: ItemTree.preorderList cs
def ItemTree.preorderList : List ItemTree → List ItemTree
  | [] => []
  | t :: ts => t.preorder ++ ItemTree.preorderList ts
end

/-- A compilation unit: the root container and its top-level items
(the HIR owner list is the root followed by the items in pre-order, the
order in which rustc allocates owner ids). -/
structure HirCrate where
  rootDefId : DefId
  rootSpan : Span
  rootItems : List ItemTree

/-- Hard failures of the lowering: span-carrying user errors (`err_span`),
unsupported-construct errors (`unsupported_err!`), and internal panics. -/
inductive Err where
  | errSpan (span : Span) (msg : String)
  | unsupported (span : Span) (msg : String)
  | bug (msg : String)
deriving DecidableEq

/-- VIR module: path plus the at-most-once `reveals` slot. -/
structure Module where
  path : Path
  reveals : Option (List Fun)
deriving DecidableEq

/-- VIR function kinds distinguished here. -/
inductive FunKindD where
  | static
  | traitMethodImpl (method : Fun) (impl_path : Path) (trait_path : Path)
deriving DecidableEq

/-- VIR function record (the fields this level populates). -/
structure Function where
  name : Fun
  kind : FunKindD
deriving DecidableEq

/-- VIR datatype record (path only, at this level). -/
structure Datatype where
  path : Path
deriving DecidableEq

/-- VIR trait record: identity path, declared method paths, and the number
of associated-type bounds. -/
structure TraitDecl where
  name : Path
  methods : List Fun
  assoc_typs_bounds : Nat
deriving DecidableEq

/-- VIR trait-implementation record (`TraitImplX`). -/
structure TraitImpl where
  impl_path : Path
  typ_params : List Ident
  trait_path : Path
  trait_typ_args : List Ty
  impl_paths : List Path
  owning_module : Option Path
  auto_imported : Bool
deriving DecidableEq

/-- VIR associated-type-implementation record (`AssocTypeImplX`). -/
structure AssocTypeImpl where
  name : Ident
  impl_path : Path
  trait_path : Path
  trait_typ_args : List Ty
  typ : Ty
  impl_paths : List Path
deriving DecidableEq

/-- The output aggregate (`KrateX`). -/
structure KrateX where
  functions : List Function
  reveal_groups : List Path
  datatypes : List Datatype
  traits : List TraitDecl
  trait_impls : List TraitImpl
  assoc_type_impls : List AssocTypeImpl
  modules : List Module
  external_fns : List Fun
  external_types : List Path
deriving DecidableEq

/-- Insert into a list treated as a set (`HashSet::insert`). -/
def setInsert {α : Type} [DecidableEq α] (xs : List α) (a : α) : List α :=
  if a ∈ xs then xs else a :: xs

/-- Lookup in an association list treated as a map (`HashMap::get`). -/
def assocGet (m : List (DefId × Bool)) (k : DefId) : Option Bool :=
  (m.find? (fun kv => kv.1 == k)).map (fun kv => kv.2)

/-- Insert into an association list treated as a map (`HashMap::insert`,
replacing any previous binding). -/
def assocPut (m : List (DefId × Bool)) (k : DefId) (b : Bool) : List (DefId × Bool) :=
  (k, b) :: m.filter (fun kv => kv.1 ≠ k)

/-- The external bookkeeping context (`ExternalInfo`). -/
structure ExternalInfo where
  local_trait_ids : List DefId
  trait_id_set : List DefId
  type_paths : List Path
  type_id_map : List (DefId × Bool)
  internal_trait_impls : List DefId
  external_fn_specification_trait_method_impls : List (DefId × Span)
deriving DecidableEq

/-- Erasure bookkeeping side channel (`ErasureInfo`, the fields this level
touches). -/
structure ErasureInfo where
  ignored_functions : List (DefId × Span)
  external_functions : List Fun
deriving DecidableEq

/-- The mutable state threaded through one compilation-unit pass: the
growing VIR output, the erasure side channel, and the external
bookkeeping. -/
structure St where
  vir : KrateX
  erasure : ErasureInfo
  ext : ExternalInfo
deriving DecidableEq

/-- The type-checking oracle and the out-of-scope collaborators, as an
explicit record of query functions (spec §6, "External interfaces"):
path resolution, resolved types, trait-reference resolution, lang items,
whole-dependency-graph implementation enumeration, and the lowering
collaborators modelled from the spec. -/
structure Context where
  defPath : DefId → Path
  defPathOption : DefId → Option Path
  defSpan : DefId → Span
  ownerOfItem : DefId → DefId
  typeOf : DefId → Ty
  implTraitRef : DefId → Option (DefId × List Ty)
  implOfMethod : DefId → Option DefId
  isStructuralEqShallow : Ty → Bool
  isSealed : DefId → Bool
  rustItem : DefId → Option RustItem
  verusItem : DefId → Option VerusItem
  langSized : DefId
  langCopy : DefId
  langUnpin : DefId
  langSync : DefId
  langTuple : DefId
  langSend : DefId
  foreignTraitIds : List DefId
  allImpls : DefId → List DefId
  isLocalCrate : DefId → Bool
  implGenericsBoundTys : DefId → List Ty
  midTyToVir : Ty → Except Err Ty
  checkGenericsBounds : DefId → Except Err (List Ident)
  getImplPaths : DefId → List Path
  assocImplPaths : DefId → List Path
  handleRevealHide : CallExpr → Except Err Fun

/-- `ExternalInfo::add_type_id`. -/
def ExternalInfo.add_type_id (ei : ExternalInfo) (did : DefId) : ExternalInfo :=
  { ei with type_id_map := assocPut ei.type_id_map did true }

/-- `ExternalInfo::has_type_id`: memoized "is this id a known datatype
path" query (consults the cache, else resolves the path, and records the
answer). -/
def ExternalInfo.has_type_id (ctxt : Context) (ei : ExternalInfo) (did : DefId) :
    Bool × ExternalInfo :=
  match assocGet ei.type_id_map did with
  | none =>
    let path := ctxt.defPath did
    let has : Bool := decide (path ∈ ei.type_paths)
    (has, { ei with type_id_map := assocPut ei.type_id_map did has })
  | some b => (b, ei)

/-- Modelled from the spec: `check_item_fn` (function lowering, a separate
collaborator file).  An external function is skipped; a function carrying
`external_fn_specification` contributes a deferred (target id, span)
binding to the external bookkeeping when its target is a trait-method
implementation (the proxy record itself is out of scope here); any other
function is lowered to a Function record under its owning module. -/
def check_item_fn (ctxt : Context) (st : St) (did : DefId) (kind : FunKindD)
    (vattrs : VerifierAttrs) (specTarget : Option DefId) (span : Span) :
    Except Err St :=
  if vattrs.is_external then .ok st
  else if vattrs.external_fn_specification then
    match specTarget with
    | none => .error (.errSpan span "external_fn_specification requires a target")
    | some t =>
      if (ctxt.implOfMethod t).isSome then
        .ok { st with ext := { st.ext with
          external_fn_specification_trait_method_impls :=
            st.ext.external_fn_specification_trait_method_impls ++ [(t, span)] } }
      else .ok st
  else
    .ok { st with vir := { st.vir with
      functions := st.vir.functions ++ [{ name := ctxt.defPath did, kind }] } }

/-- Modelled from the spec: `check_item_const_or_static` (function lowering
collaborator) registers a lowered const/static as a Function record. -/
def check_item_const_or_static (st : St) (path : Path) : Except Err St :=
  .ok { st with vir := { st.vir with
    functions := st.vir.functions ++ [{ name := path, kind := .static }] } }

/-- Modelled from the spec: datatype lowering (`check_item_struct` /
`check_item_enum` / `check_item_union`, a separate collaborator file)
appends a Datatype record and registers the id as a known type. -/
def check_item_datatype (ctxt : Context) (st : St) (did : DefId) : Except Err St :=
  .ok { st with
    vir := { st.vir with datatypes := st.vir.datatypes ++ [{ path := ctxt.defPath did }] },
    ext := st.ext.add_type_id did }

/-- Modelled from the spec: `translate_trait` (trait lowering collaborator)
lowers a trait declaration to a Trait record (method paths are the trait
path extended by the method name) and registers the trait's identity in
the external bookkeeping for the Harvester. -/
def translate_trait (ctxt : Context) (st : St) (did : DefId)
    (methods : List Ident) (assocTypBounds : Nat) : Except Err St :=
  let name := ctxt.defPath did
  let tr : TraitDecl :=
    { name, methods := methods.map (fun m => name ++ [m]), assoc_typs_bounds := assocTypBounds }
  .ok { st with
    vir := { st.vir with traits := st.vir.traits ++ [tr] },
    ext := { st.ext with local_trait_ids := st.ext.local_trait_ids ++ [did] } }

/-- The statement-by-statement resolution of a module-level
`broadcast use` body: each statement must be a `Semi` call whose target
resolves to the reveal-hide directive, and each such call is resolved to a
revealed function identity (via the reveal-hide collaborator); any other
shape is the "invalid module-level broadcast use" error. -/
def parseBroadcastFuns (ctxt : Context) (span : Span) :
    List Stmt → Except Err (List Fun)
  | [] => .ok []
  | stmt :: rest =>
    match stmt with
    | .otherStmt => .error (.errSpan span "invalid module-level broadcast use")
    | .semiCall c =>
      match ctxt.verusItem c.funTarget with
      | some .directiveRevealHide => do
        let f ← ctxt.handleRevealHide c
        let fs ← parseBroadcastFuns ctxt span rest
        .ok (f :: fs)
      | _ => .error (.errSpan span "invalid module-level broadcast use")

/-- Set the `reveals` slot of the first module with the given path. -/
def updateModuleReveals : List Module → Path → List Fun → List Module
  | [], _, _ => []
  | m :: ms, mp, funs =>
    if m.path = mp then { m with reveals := some funs } :: ms
    else m :: updateModuleReveals ms mp funs

/-- The `handle_const_or_static` closure of `check_item`: size-of-global
and broadcast-use interception, the derived-Structural constant shortcut,
external registration, then delegation to const/static lowering. -/
def handle_const_or_static (ctxt : Context) (st : St) (mpath : Option (Option Path))
    (item : Item) : Except Err St :=
  let vattrs := item.vattrs
  let path := ctxt.defPath item.did
  if vattrs.size_of_global then .ok st
  else if vattrs.item_broadcast_use then
    match item.kind with
    | .constDecl gparams gpreds body =>
      if ¬ (gparams = 0 ∧ gpreds = 0) then
        .error (.unsupported item.span "const generics with broadcast")
      else
        match body with
        | .otherBody => .error (.errSpan item.span "invalid module-level broadcast use")
        | .block stmts => do
          let funs ← parseBroadcastFuns ctxt item.span stmts
          match mpath with
          | some (some mp) =>
            match st.vir.modules.find? (fun m => m.path == mp) with
            | none => .error (.bug "cannot find current module")
            | some m =>
              if m.reveals.isSome then
                .error (.errSpan item.span
                  "only one module-level `broadcast use` allowed for each module")
              else
                .ok { st with vir := { st.vir with
                  modules := updateModuleReveals st.vir.modules mp funs } }
          | _ => .error (.unsupported item.span "unsupported broadcast use here")
    | _ => .error (.errSpan item.span "invalid module-level broadcast use")
  else if path.any (fun s => s.startsWith "_DERIVE_builtin_Structural_FOR_") then
    .ok { st with erasure := { st.erasure with
      ignored_functions := st.erasure.ignored_functions ++ [(item.did, item.span)] } }
  else if vattrs.is_external then
    .ok { st with erasure := { st.erasure with
      external_functions := st.erasure.external_functions ++ [ctxt.defPath item.did] } }
  else do
    let _vir_ty ← ctxt.midTyToVir (ctxt.typeOf item.did)
    check_item_const_or_static st path

/-- `trait_impl_to_vir`: lower an impl block's trait reference to a
TraitImpl record (identity path, trait path, instantiated type arguments
with the self type first, generic parameters, bound-discharging impl
paths, owning module, auto-imported flag). -/
def trait_impl_to_vir (ctxt : Context) (impl_def_id : DefId)
    (module_path : Path) (auto_imported : Bool) :
    Except Err (Path × List Ty × TraitImpl) := do
  let some (trait_did, args) := ctxt.implTraitRef impl_def_id
    | .error (.bug "impl_trait_ref")
  let impl_paths := ctxt.getImplPaths impl_def_id
  let types ← args.mapM ctxt.midTyToVir
  let trait_path := ctxt.defPath trait_did
  let typ_params ← ctxt.checkGenericsBounds impl_def_id
  let impl_path := ctxt.defPath impl_def_id
  let ti : TraitImpl :=
    { impl_path, typ_params, trait_path, trait_typ_args := types, impl_paths,
      owning_module := some module_path, auto_imported }
  .ok (trait_path, types, ti)

/-- The per-method erasure bookkeeping of an ignored (structural-marker)
impl block: every `Fn` item reference taking `self` is recorded as an
erasure-ignored function (a non-`Fn` impl item behind such a reference is
an internal panic). -/
def structuralIgnoredFns : List ImplItemRef → Except Err (List (DefId × Span))
  | [] => .ok []
  | r :: rs =>
    match r.kind with
    | .fn true =>
      match r.itemKind with
      | .fn => do
        let rest ← structuralIgnoredFns rs
        .ok ((r.did, r.span) :: rest)
      | _ => .error (.bug "Fn impl item expected")
    | _ => structuralIgnoredFns rs

/-- One impl item of a non-ignored impl block: the all-or-nothing external
check, then method lowering (trait-method-implementation kind when the
block implements a trait) or associated-type lowering. -/
def checkImplItem (ctxt : Context) (item : Item)
    (tpta : Option (Path × List Ty)) (impl_path : Path)
    (st : St) (r : ImplItemRef) : Except Err St :=
  if tpta.isSome && r.vattrs.external then
    .error (.errSpan item.span
      "an item in a trait impl cannot be marked external - you can either use external_body, or mark the entire trait impl as external")
  else
    match r.kind with
    | .fn _ =>
      match r.itemKind with
      | .fn =>
        let kind := match tpta with
          | some (trait_path, _trait_typ_args) =>
            FunKindD.traitMethodImpl (trait_path ++ [r.ident]) impl_path trait_path
          | none => FunKindD.static
        check_item_fn ctxt st r.did kind r.vattrs none r.span
      | _ => .error (.unsupported item.span "unsupported item in impl")
    | .type =>
      if r.genericsPreds ≠ 0 || r.hasWhereClause then
        .error (.unsupported item.span "unsupported generics on associated type")
      else
        match r.itemKind with
        | .typeItem =>
          match tpta with
          | some (trait_path, trait_typ_args) => do
            let typ ← ctxt.midTyToVir (ctxt.typeOf r.did)
            let _typ_params ← ctxt.checkGenericsBounds item.did
            let assoc : AssocTypeImpl :=
              { name := r.ident, impl_path, trait_path, trait_typ_args, typ,
                impl_paths := ctxt.assocImplPaths r.did }
            .ok { st with vir := { st.vir with
              assoc_type_impls := st.vir.assoc_type_impls ++ [assoc] } }
          | none => .error (.unsupported item.span "unsupported item ref in impl")
        | _ => .error (.unsupported item.span "unsupported item ref in impl")
    | .otherAssoc => .error (.unsupported item.span "unsupported item ref in impl")

/-- The per-trait checks of an `impl Trait for T` block, producing the
`ignore` flag: call-like trait rejection, sealed and `unsafe` checks,
the derived-structural marker's defensive shallow-structural assertion,
and recognition of the compiler equality traits. -/
def structuralMarkerIgnore (ctxt : Context) (item : Item) (impll : ImplBlock)
    (tr : TraitRefD) : Except Err Bool := do
  let trait_def_id := tr.traitDefId
  let rust_item := ctxt.rustItem trait_def_id
  if rust_item = some .fnTrait ∨ rust_item = some .fnOnce ∨ rust_item = some .fnMut then
    Except.error (.errSpan item.span
      "Verus does not support implementing this trait via an `impl` block")
  else
    let verus_item := ctxt.verusItem trait_def_id
    if ctxt.isSealed trait_def_id then
      Except.error (.errSpan item.span "cannot implement `sealed` trait")
    else if impll.unsafety then
      Except.error (.errSpan item.span "the verifier does not support `unsafe` here")
    else if verus_item = some .markerStructural then do
      let tydid ←
        match impll.selfTy with
        | .resolvedPath d => Except.ok d
        | .otherSelfTy => Except.error (.bug "self type of impl is not resolved")
      let ty := ctxt.typeOf tydid
      let tyNever ←
        match ty.appliedNever with
        | some t => Except.ok t
        | none => Except.error (.bug "Structural impl for non-adt type")
      if ctxt.isStructuralEqShallow tyNever then Except.ok true
      else
        Except.error (.errSpan item.span
          ("structural impl for non-structural type " ++ ty.debugStr))
    else if rust_item = some .structuralEqTrait ∨
        rust_item = some .structuralPartialEqTrait ∨
        rust_item = some .partialEqTrait ∨ rust_item = some .eqTrait then
      Except.ok true
    else Except.ok false

/-- The `ItemKind::Impl` arm of `check_item`: external skip, `unsafe`
rejection, the per-trait checks (call-trait, sealed, `unsafe`,
structural marker), the erasure-only acceptance of ignored blocks, and
otherwise trait-reference lowering followed by lowering of the block's
methods and associated types. -/
def check_item_impl (ctxt : Context) (st : St)
    (item : Item) (impll : ImplBlock) (modulePath : Path) : Except Err St :=
  let impl_def_id := item.did
  let impl_path := ctxt.defPath impl_def_id
  let vattrs := item.vattrs
  if vattrs.is_external then .ok st
  else if impll.unsafety && impll.ofTrait.isNone then
    .error (.errSpan item.span "the verifier does not support `unsafe` here")
  else do
    let ignore ←
      match impll.ofTrait with
      | none => Except.ok false
      | some tr => structuralMarkerIgnore ctxt item impll tr
    if ignore then do
      let ign ← structuralIgnoredFns impll.items
      .ok { st with erasure := { st.erasure with
        ignored_functions := st.erasure.ignored_functions ++ ign } }
    else do
      let (st, tpta) ←
        match impll.ofTrait with
        | some _ => do
          let st : St := { st with ext := { st.ext with
            internal_trait_impls := setInsert st.ext.internal_trait_impls impl_def_id } }
          let (trait_path, types, trait_impl) ←
            trait_impl_to_vir ctxt impl_def_id modulePath false
          let st : St := { st with vir := { st.vir with
            trait_impls := st.vir.trait_impls ++ [trait_impl] } }
          Except.ok (st, some (trait_path, types))
        | none => Except.ok (st, none)
      impll.items.foldlM (checkImplItem ctxt item tpta impl_path) st

/-- `check_item`: the item classifier/dispatcher.  Attribute sanity checks
first (internal reveal marker, misplaced `external_fn_specification` /
`external_type_specification`, unresolvable external paths), then
dispatch over the declaration's syntactic kind; any form the match does
not recognize is skipped when external and a hard unsupported-construct
error otherwise. -/
def check_item (ctxt : Context) (st : St) (mpath : Option (Option Path))
    (item : Item) : Except Err St :=
  let modulePath : Path :=
    match mpath with
    | some (some p) => p
    | _ => ctxt.defPath (ctxt.ownerOfItem item.did)
  let vattrs := item.vattrs
  if vattrs.internal_reveal_fn then .ok st
  else if vattrs.external_fn_specification && !item.kind.isFn then
    .error (.errSpan item.span "`external_fn_specification` attribute not supported here")
  else if vattrs.external_type_specification && !item.kind.isStruct then
    (if item.kind.isEnum then
      .error (.errSpan item.span
        "`external_type_specification` proxy type should use a struct with a single field to declare the external type (even if the external type is an enum)")
     else
      .error (.errSpan item.span "`external_type_specification` attribute not supported here"))
  else if vattrs.is_external && (ctxt.defPathOption item.did).isNone then .ok st
  else
    match item.kind with
    | .fn specTarget =>
      check_item_fn ctxt st item.did .static vattrs specTarget item.span
    | .useDecl => .ok st
    | .externCrate => .ok st
    | .modDecl => .ok st
    | .foreignMod => .ok st
    | .structDecl =>
      if vattrs.is_external then
        if vattrs.external_type_specification then
          .error (.errSpan item.span
            "a type cannot be marked both `external_type_specification` and `external`")
        else
          .ok { st with vir := { st.vir with
            external_types := st.vir.external_types ++ [ctxt.defPath item.did] } }
      else check_item_datatype ctxt st item.did
    | .enumDecl =>
      if vattrs.is_external then
        .ok { st with vir := { st.vir with
          external_types := st.vir.external_types ++ [ctxt.defPath item.did] } }
      else check_item_datatype ctxt st item.did
    | .unionDecl =>
      if vattrs.is_external then
        .ok { st with vir := { st.vir with
          external_types := st.vir.external_types ++ [ctxt.defPath item.did] } }
      else check_item_datatype ctxt st item.did
    | .implBlock impll => check_item_impl ctxt st item impll modulePath
    | .constDecl gparams gpreds _body =>
      if ¬ (gparams = 0 ∧ gpreds = 0) then
        .error (.unsupported item.span "const generics")
      else handle_const_or_static ctxt st mpath item
    | .staticDecl isMut _body =>
      if vattrs.is_external then .ok st
      else if isMut then .error (.unsupported item.span "static mut")
      else handle_const_or_static ctxt st mpath item
    | .macroDecl => .ok st
    | .traitDecl false false methods assocTypBounds =>
      if vattrs.is_external then
        if vattrs.external_trait_specification then
          .error (.errSpan item.span
            "a trait cannot be marked both `external_trait_specification` and `external`")
        else .ok st
      else translate_trait ctxt st item.did methods assocTypBounds
    | .tyAlias => .ok st
    | .globalAsm => .ok st
    | .opaqueTy true => .ok st
    | _ =>
      if vattrs.is_external then .ok st
      else .error (.unsupported item.span "unsupported item")

/-- The declaration→module map (`ItemToModuleMap`): `none` when a
declaration is absent, `some none` when it is owned by no module
(external), `some (some p)` when module `p` owns it. -/
def ItemToModuleMap : Type := DefId → Option (Option Path)

/-- `HashMap::insert` on the declaration→module map. -/
def mmInsert (m : ItemToModuleMap) (k : DefId) (v : Option Path) : ItemToModuleMap :=
  fun i => if i = k then some v else m i

/-- `HashMap::extend` on the declaration→module map (later entries of the
batch, and the batch as a whole, overwrite earlier bindings). -/
def mmExtend (m : ItemToModuleMap) (kvs : List (DefId × Option Path)) : ItemToModuleMap :=
  kvs.foldl (fun m kv => mmInsert m kv.1 kv.2) m

/-- The ids `VisitMod` collects from one owner: the item itself followed
by every item transitively nested inside it, in pre-order. -/
def visitModIds (t : ItemTree) : List DefId :=
  t.preorder.map (fun n => n.itemOf.did)

/-- One step of the module-mapping loop of `crate_to_vir`, for one item
owner: an external module maps its whole subtree (itself included) to
`None`; a non-external module is registered and its immediate children
are mapped to its path; any other external or external-body item maps its
strictly-nested items to `None`. -/
def mapModOwner (ctxt : Context) (acc : List Module × ItemToModuleMap) (t : ItemTree) :
    List Module × ItemToModuleMap :=
  let (mods, m) := acc
  let item := t.itemOf
  match item.kind with
  | .modDecl =>
    if item.vattrs.external then
      (mods, mmExtend m ((visitModIds t).map (fun i => (i, none))))
    else
      let path := ctxt.defPath item.did
      (mods ++ [{ path, reveals := none }],
       mmExtend m (t.childrenOf.map (fun c => (c.itemOf.did, some path))))
  | _ =>
    if item.vattrs.external || item.vattrs.external_body then
      (mods, mmExtend m (((visitModIds t).drop 1).map (fun i => (i, none))))
    else (mods, m)

/-- The module-mapping phase of `crate_to_vir` over the owner list: the
crate root (owner 0) registers the root module and maps its immediate
children to the root path; then every item owner is visited in pre-order
(the order rustc allocates owner ids). -/
def buildItemToModule (ctxt : Context) (crate : HirCrate) :
    List Module × ItemToModuleMap :=
  let rootPath := ctxt.defPath crate.rootDefId
  let init : List Module × ItemToModuleMap :=
    ([{ path := rootPath, reveals := none }],
     mmExtend (fun _ => none)
       (crate.rootItems.map (fun c => (c.itemOf.did, some rootPath))))
  (ItemTree.preorderList crate.rootItems).foldl (mapModOwner ctxt) init

/-- The item-checking phase of `crate_to_vir`: every item owner in order;
an item whose map entry is `Some(None)` (externalized container contents)
is skipped, every other item goes through `check_item`. -/
def checkItems (ctxt : Context) (m : ItemToModuleMap) (st : St) (crate : HirCrate) :
    Except Err St :=
  (ItemTree.preorderList crate.rootItems).foldlM
    (fun st t =>
      let item := t.itemOf
      match m item.did with
      | some none => .ok st
      | mp => check_item ctxt st mp item)
    st

/-- Registration of all known datatype paths (imported crates first, then
the current krate) in the external bookkeeping. -/
def addKnownDatatypes (imported : List KrateX) (krate : KrateX) (ei : ExternalInfo) :
    ExternalInfo :=
  let step := fun (ei : ExternalInfo) (k : KrateX) =>
    k.datatypes.foldl
      (fun ei d => { ei with type_paths := setInsert ei.type_paths d.path }) ei
  step (imported.foldl step ei) krate

/-- Trait names declared to the verifier in already-processed crates. -/
def oldTraitNames (imported : List KrateX) : List Path :=
  imported.foldl
    (fun acc k => k.traits.foldl (fun acc t => setInsert acc t.name) acc) []

/-- Trait names first declared to the verifier in the current krate. -/
def newTraitNames (old : List Path) (krate : KrateX) : List Path :=
  krate.traits.foldl
    (fun acc t => if t.name ∈ old then acc else setInsert acc t.name) []

/-- The candidate-enumeration step of the Harvester for one known trait:
every implementation of it in the dependency graph, skipping impls
already considered or already processed internally, keeping those whose
trait is new to this unit or which originate in the local crate.  The
accumulator is (considered set, candidate list). -/
def autoImportConsider (ctxt : Context) (internal : List DefId) (new_traits : List Path)
    (path : Path) (acc : List DefId × List DefId) (impl_def_id : DefId) :
    List DefId × List DefId :=
  let (considered, autos) := acc
  if impl_def_id ∈ considered then acc
  else
    let considered := impl_def_id :: considered
    if impl_def_id ∈ internal then (considered, autos)
    else
      let is_new_trait : Bool := decide (path ∈ new_traits)
      let is_local_impl := ctxt.isLocalCrate impl_def_id
      if is_new_trait || is_local_impl then (considered, autos ++ [impl_def_id])
      else (considered, autos)

def autoImportStep (ctxt : Context) (internal : List DefId) (new_traits : List Path)
    (acc : List DefId × List DefId) (trait_id : DefId) : List DefId × List DefId :=
  (ctxt.allImpls trait_id).foldl
    (autoImportConsider ctxt internal new_traits (ctxt.defPath trait_id)) acc

/-- Candidate enumeration over all known trait ids. -/
def computeAutoImports (ctxt : Context) (internal : List DefId) (new_traits : List Path)
    (trait_ids : List DefId) : List DefId × List DefId :=
  trait_ids.foldl (autoImportStep ctxt internal new_traits) ([], [])

/-- Modelled from the spec: `mid_ty_filter_for_external_impls` walks every
type node reachable from the given list and reports whether each is known
to the verifier — a known datatype path (memoized through
`has_type_id`), a recognized built-in, or a type parameter — returning
false as soon as an unknown node is found. -/
def tyNodesKnown (ctxt : Context) (ei : ExternalInfo) : List Ty → Bool × ExternalInfo
  | [] => (true, ei)
  | t :: ts =>
    match t with
    | .adt d _ =>
      let (has, ei) := ExternalInfo.has_type_id ctxt ei d
      if has then tyNodesKnown ctxt ei ts else (false, ei)
    | .prim recognized _ =>
      if recognized then tyNodesKnown ctxt ei ts else (false, ei)
    | _ => tyNodesKnown ctxt ei ts

/-- The Harvester's safety filter over the type arguments of a trait
reference. -/
def mid_ty_filter_for_external_impls (ctxt : Context) (ei : ExternalInfo)
    (ts : List Ty) : Bool × ExternalInfo :=
  tyNodesKnown ctxt ei (Ty.walkListAux ts)

/-- Modelled from the spec: `mid_generics_filter_for_external_impls`
applies the same known-type filter to every type occurring in the
implementation's own generic-parameter bounds. -/
def mid_generics_filter_for_external_impls (ctxt : Context) (impl_def_id : DefId)
    (ei : ExternalInfo) : Bool × ExternalInfo :=
  tyNodesKnown ctxt ei (Ty.walkListAux (ctxt.implGenericsBoundTys impl_def_id))

/-- One candidate of the Harvester's `'impls` loop: resolve the trait
reference (skip if absent), apply the safety filter to the trait's type
arguments and to the impl's own generic bounds (skip on failure), then
lower; lowering failure is a silent drop, success appends an
auto-imported record and marks the impl collected. -/
def harvestStep (ctxt : Context) (acc : KrateX × ExternalInfo × List DefId)
    (impl_def_id : DefId) : KrateX × ExternalInfo × List DefId :=
  let (krate, ei, collected) := acc
  match ctxt.implTraitRef impl_def_id with
  | none => (krate, ei, collected)
  | some (_trait_did, args) =>
    let (ok1, ei) := mid_ty_filter_for_external_impls ctxt ei args
    if !ok1 then (krate, ei, collected)
    else
      let (ok2, ei) := mid_generics_filter_for_external_impls ctxt impl_def_id ei
      if !ok2 then (krate, ei, collected)
      else
        let impl_path := ctxt.defPath impl_def_id
        let module_path := impl_path.popSegment
        match trait_impl_to_vir ctxt impl_def_id module_path true with
        | .ok (_, _, trait_impl) =>
          ({ krate with trait_impls := krate.trait_impls ++ [trait_impl] }, ei,
           setInsert collected impl_def_id)
        | .error _ => (krate, ei, collected)

/-- The Harvester's `'impls` loop over the candidate list. -/
def harvestImpls (ctxt : Context) (autos : List DefId) (krate : KrateX)
    (ei : ExternalInfo) : KrateX × ExternalInfo × List DefId :=
  autos.foldl (harvestStep ctxt) (krate, ei, [])

/-- One group of external-function-specification declarations targeting
the same trait-implementation identity. -/
structure SpecGroup where
  implPathKey : Path
  implDefId : DefId
  funs : List (DefId × Span)
deriving DecidableEq

/-- Insert one deferred (method id, span) binding into the group list
keyed by the target implementation's identity path (`IndexMap` with
insertion order preserved); a missing `impl_of_method` is the unwrap
panic. -/
def addDeferredEntry (ctxt : Context) (groups : List SpecGroup)
    (did : DefId) (span : Span) : Except Err (List SpecGroup) :=
  let key := (ctxt.defPath did).popSegment
  if (groups.find? (fun g => g.implPathKey == key)).isSome then
    .ok (groups.map (fun g =>
      if g.implPathKey == key then { g with funs := g.funs ++ [(did, span)] } else g))
  else
    match ctxt.implOfMethod did with
    | some impl_def_id =>
      .ok (groups ++ [{ implPathKey := key, implDefId := impl_def_id, funs := [(did, span)] }])
    | none => .error (.bug "impl_of_method")

/-- Grouping of all deferred external-function-specification bindings. -/
def buildNewTraitImpls (ctxt : Context) (deferred : List (DefId × Span)) :
    Except Err (List SpecGroup) :=
  deferred.foldlM (fun gs (p : DefId × Span) => addDeferredEntry ctxt gs p.1 p.2) []

/-- Build the `methods_we_have` name set of a specification group; a
second specification of the same method name is the duplicate error. -/
def insertMethodNames (ctxt : Context) :
    List (DefId × Span) → List Ident → Except Err (List Ident)
  | [], acc => .ok acc
  | (did, span) :: rest, acc =>
    let seg := (ctxt.defPath did).lastSegment
    if seg ∈ acc then
      .error (.errSpan span "duplicate external_fn_specification for this method")
    else insertMethodNames ctxt rest (acc ++ [seg])

/-- Reconciliation of one external-function-specification group: skip if
the trait is not in the current krate; reject duplicate specifications,
traits with associated types, and incomplete coverage (naming the first
missing method); skip implementations already collected by the
Harvester; otherwise synthesize one non-auto-imported record. -/
def reconcileGroup (ctxt : Context) (trait_map : List TraitDecl)
    (collected : List DefId) (krate : KrateX) (g : SpecGroup) : Except Err KrateX := do
  let some (trait_did, _args) := ctxt.implTraitRef g.implDefId
    | .error (.bug "impl_trait_ref")
  let trait_path := ctxt.defPath trait_did
  match trait_map.find? (fun t => t.name == trait_path) with
  | none => .ok krate
  | some traitt =>
    match g.funs with
    | [] => .error (.bug "group without functions")
    | f0 :: _ => do
      let span := f0.2
      let methods_we_have ← insertMethodNames ctxt g.funs []
      if traitt.assoc_typs_bounds > 0 then
        .error (.errSpan span
          "not supported: using external_fn_specification for a trait method impl where the trait has associated types")
      else
        match traitt.methods.find? (fun mp => !(methods_we_have.contains mp.lastSegment)) with
        | some missing =>
          .error (.errSpan span
            ("using external_fn_specification for this function requires you to specify all other functions for the same trait impl, but the method `"
              ++ missing.lastSegment ++ "` is missing"))
        | none =>
          if g.implDefId ∈ collected then .ok krate
          else do
            let module_path := g.implPathKey.popSegment
            let (_tp, _tys, trait_impl) ←
              trait_impl_to_vir ctxt g.implDefId module_path false
            .ok { krate with trait_impls := krate.trait_impls ++ [trait_impl] }

/-- `collect_external_trait_impls`: the whole-program pass run once after
all local declarations — datatype registration, known-trait collection,
candidate enumeration, the filtered harvest, and external-function-
specification reconciliation. -/
def collect_external_trait_impls (ctxt : Context) (imported : List KrateX)
    (krate : KrateX) (ei : ExternalInfo) : Except Err (KrateX × ExternalInfo) := do
  let ei := addKnownDatatypes imported krate ei
  let old_traits := oldTraitNames imported
  let new_traits := newTraitNames old_traits krate
  let all_traits := old_traits ++ new_traits
  let all_trait_ids :=
    (ctxt.foreignTraitIds.filter (fun tid => decide (ctxt.defPath tid ∈ all_traits)))
      ++ ei.local_trait_ids
  let ei := { ei with trait_id_set := all_trait_ids.foldl setInsert ei.trait_id_set }
  let (_considered, autos) :=
    computeAutoImports ctxt ei.internal_trait_impls new_traits all_trait_ids
  let (krate, ei, collected) := harvestImpls ctxt autos krate ei
  let trait_map := krate.traits
  let groups ← buildNewTraitImpls ctxt ei.external_fn_specification_trait_method_impls
  let krate ← groups.foldlM (reconcileGroup ctxt trait_map collected) krate
  .ok (krate, ei)

/-- The empty output aggregate `crate_to_vir` starts from. -/
def initKrate : KrateX :=
  { functions := [], reveal_groups := [], datatypes := [], traits := [],
    trait_impls := [], assoc_type_impls := [], modules := [], external_fns := [],
    external_types := [] }

/-- The initial external bookkeeping: empty except for the built-in
marker traits Sized, Copy, Unpin, Sync, Tuple and Send pre-registered in
the known-trait-identity set. -/
def initExternalInfo (ctxt : Context) : ExternalInfo :=
  { local_trait_ids := [],
    trait_id_set :=
      setInsert (setInsert (setInsert (setInsert (setInsert (setInsert []
        ctxt.langSized) ctxt.langCopy) ctxt.langUnpin) ctxt.langSync)
        ctxt.langTuple) ctxt.langSend,
    type_paths := [], type_id_map := [], internal_trait_impls := [],
    external_fn_specification_trait_method_impls := [] }

/-- `crate_to_vir`: the top-level driver.  Initialize the output and the
external bookkeeping, compute the declaration→module map (registering
modules), lower every owner's item, wire the external-function list, run
the Harvester, and return the krate with the map (the final bookkeeping
is also returned here so its invariants can be stated). -/
def crate_to_vir (ctxt : Context) (imported : List KrateX) (crate : HirCrate) :
    Except Err (KrateX × ItemToModuleMap × ExternalInfo) := do
  let ei := initExternalInfo ctxt
  let (mods, item_to_module) := buildItemToModule ctxt crate
  let vir : KrateX := { initKrate with modules := mods }
  let er : ErasureInfo := { ignored_functions := [], external_functions := [] }
  let st : St := { vir, erasure := er, ext := ei }
  let st ← checkItems ctxt item_to_module st crate
  let vir := { st.vir with external_fns := st.erasure.external_functions }
  let (vir, eiFinal) ← collect_external_trait_impls ctxt imported vir st.ext
  .ok (vir, item_to_module, eiFinal)

/-- The syntactic shapes that reach the dispatcher's final catch-all arm:
forms the match does not recognize, opaque types of non-async origin, and
auto or `unsafe` traits. -/
def ItemKind.unrecognized : ItemKind → Bool
  | .otherItem _ => true
  | .opaqueTy asyncOrigin => !asyncOrigin
  | .traitDecl isAuto uns _ _ => isAuto || uns
  | _ => false

/-- A type node that is not "known to the verifier" relative to a set of
known datatype paths: an ADT whose path is not known, or an unrecognized
primitive. -/
def tyNodeUnknown (ctxt : Context) (tps : List Path) : Ty → Bool
  | .adt d _ => !(decide (ctxt.defPath d ∈ tps))
  | .prim recognized _ => !recognized
  | _ => false

/-- Memo-cache coherence of the external bookkeeping: every cached
known-type answer agrees with the known-datatype path set. -/
def memoCoherent (ctxt : Context) (ei : ExternalInfo) : Prop :=
  ∀ d b, assocGet ei.type_id_map d = some b → b = decide (ctxt.defPath d ∈ ei.type_paths)

/-- The declaration→module map of a lowering run (`fun _ => none` on a
failed run). -/
def resultMap (r : Except Err (KrateX × ItemToModuleMap × ExternalInfo)) :
    ItemToModuleMap :=
  match r with
  | .ok (_, m, _) => m
  | .error _ => fun _ => none

/-- The krate of a lowering run (empty on a failed run). -/
def resultKrate (r : Except Err (KrateX × ItemToModuleMap × ExternalInfo)) : KrateX :=
  match r with
  | .ok (k, _, _) => k
  | .error _ => initKrate

/-- A neutral oracle used by the concrete test crates below; individual
scenarios override the queries they exercise. -/
def baseCtxt : Context where
  defPath := fun d => ["d" ++ toString d]
  defPathOption := fun d => some ["d" ++ toString d]
  defSpan := fun d => d
  ownerOfItem := fun _ => 0
  typeOf := fun _ => .never
  implTraitRef := fun _ => none
  implOfMethod := fun _ => none
  isStructuralEqShallow := fun _ => false
  isSealed := fun _ => false
  rustItem := fun _ => none
  verusItem := fun _ => none
  langSized := 9001
  langCopy := 9002
  langUnpin := 9003
  langSync := 9004
  langTuple := 9005
  langSend := 9006
  foreignTraitIds := []
  allImpls := fun _ => []
  isLocalCrate := fun _ => true
  implGenericsBoundTys := fun _ => []
  midTyToVir := fun t => .ok t
  checkGenericsBounds := fun _ => .ok []
  getImplPaths := fun _ => []
  assocImplPaths := fun _ => []
  handleRevealHide := fun c => .ok ["r" ++ toString c.funTarget]

/-- An empty lowering state (for concrete `check_item` scenarios). -/
def emptySt : St :=
  { vir := initKrate,
    erasure := ⟨[], []⟩,
    ext := ⟨[], [], [], [], [], []⟩ }

/-- Paths for the external-module scenario: a crate root `c` containing an
external module `outer`, which contains a non-external module `inner`,
which contains a function `f`. -/
def c1Path : DefId → Path
  | 0 => ["c"]
  | 1 => ["c", "outer"]
  | 2 => ["c", "outer", "inner"]
  | 3 => ["c", "outer", "inner", "f"]
  | d => ["d" ++ toString d]

def c1Ctxt : Context :=
  { baseCtxt with defPath := c1Path, defPathOption := fun d => some (c1Path d) }

/-- `#[verifier::external] mod outer { mod inner { fn f() {} } }`. -/
def c1Crate : HirCrate :=
  { rootDefId := 0, rootSpan := 0,
    rootItems := [.mk { did := 1, span := 1, vattrs := { external := true }, kind := .modDecl }
      [.mk { did := 2, span := 2, vattrs := {}, kind := .modDecl }
        [.mk { did := 3, span := 3, vattrs := {}, kind := .fn none } []]]] }

/-- A crate whose only top-level item is an external module. -/
def c8Crate : HirCrate :=
  { rootDefId := 0, rootSpan := 0,
    rootItems := [.mk { did := 1, span := 1, vattrs := { external := true }, kind := .modDecl } []] }

/-- Paths for the trait/impl/proxy scenario: trait `T` with method `m`,
an impl block `I` of `T` whose method is `I::m`, and a proxy function
`p`. -/
def c2Path : DefId → Path
  | 0 => ["c"]
  | 1 => ["c", "T"]
  | 2 => ["c", "I"]
  | 3 => ["c", "I", "m"]
  | 4 => ["c", "p"]
  | d => ["d" ++ toString d]

def c2Ctxt : Context :=
  { baseCtxt with
    defPath := c2Path,
    defPathOption := fun d => some (c2Path d),
    implTraitRef := fun d => if d = 2 then some (1, [.adt 10 []]) else none,
    implOfMethod := fun d => if d = 3 then some 2 else none,
    allImpls := fun t => if t = 1 then [2] else [] }

def c2MethodItem : ImplItemRef :=
  { did := 3, ident := "m", span := 3, kind := .fn true, itemKind := .fn,
    genericsPreds := 0, hasWhereClause := false, vattrs := {} }

def c2ImplBlock : ImplBlock :=
  { unsafety := false, ofTrait := some { traitDefId := 1 }, selfTy := .resolvedPath 10,
    items := [c2MethodItem] }

/-- A crate declaring trait `T { m }`, a local impl `I : T`, and a proxy
function carrying `external_fn_specification` whose target is the method
`I::m` of that directly-lowered impl. -/
def c2Crate : HirCrate :=
  { rootDefId := 0, rootSpan := 0,
    rootItems :=
      [.mk { did := 1, span := 1, vattrs := {}, kind := .traitDecl false false ["m"] 0 } [],
       .mk { did := 2, span := 2, vattrs := {}, kind := .implBlock c2ImplBlock } [],
       .mk { did := 4, span := 4, vattrs := { external_fn_specification := true }, kind := .fn (some 3) } []] }

/-- Reveal-directive oracle for the broadcast-use scenario: id 100 is the
reveal-hide directive. -/
def c7Ctxt : Context :=
  { baseCtxt with verusItem := fun d => if d = 100 then some .directiveRevealHide else none }

def c7Stmt : Stmt := .semiCall { funTarget := 100, args := [] }

/-- A module-level `broadcast use` constant revealing one function. -/
def c7Item (sp : Span) : Item :=
  { did := 7, span := sp, vattrs := { item_broadcast_use := true },
    kind := .constDecl 0 0 (.block [c7Stmt]) }

def c7St : St :=
  { emptySt with vir := { initKrate with modules := [{ path := ["c"], reveals := none }] } }

def c7StAfter : St :=
  { emptySt with vir := { initKrate with
      modules := [{ path := ["c"], reveals := some [["r100"]] }] } }

def c6ImplItem : ImplItemRef :=
  { did := 3, ident := "assert_receiver_is_structural", span := 3, kind := .fn true,
    itemKind := .fn, genericsPreds := 0, hasWhereClause := false, vattrs := {} }

/-- An impl block of the structural marker trait (id 50) for an ADT. -/
def c6ImplBlock : ImplBlock :=
  { unsafety := false, ofTrait := some { traitDefId := 50 }, selfTy := .resolvedPath 10,
    items := [c6ImplItem] }

/-- Oracle for the structural-marker scenario, parametrized by the
shallow-structural answer. -/
def c6Ctxt (okStructural : Bool) : Context :=
  { baseCtxt with
    verusItem := fun d => if d = 50 then some .markerStructural else none,
    typeOf := fun d => if d = 10 then .adt 10 [.param "A"] else .never,
    isStructuralEqShallow := fun _ => okStructural }

def c6Item : Item := { did := 2, span := 2, vattrs := {}, kind := .implBlock c6ImplBlock }

/-- The trait record of the reconciliation scenario: trait `T` with the
single method `m`. -/
def c5TraitDecl : TraitDecl :=
  { name := ["c", "T"], methods := [["c", "T", "m"]], assoc_typs_bounds := 0 }

/-- A specification group covering `I::m`. -/
def c5Group : SpecGroup := { implPathKey := ["c", "I"], implDefId := 2, funs := [(3, 4)] }

/-- The record the reconciliation synthesizes for `I : T`. -/
def c5TiW : TraitImpl :=
  { impl_path := ["c", "I"], typ_params := [], trait_path := ["c", "T"],
    trait_typ_args := [.adt 10 []], impl_paths := [], owning_module := some ["c"],
    auto_imported := false }

/-- Oracle for the harvester-filter scenario: an injective path resolver
(paths are repetitions of one segment) and a candidate impl (id 5) of a
trait whose one type argument is an ADT (id 77) unknown to the
verifier. -/
def c3Ctxt : Context :=
  { baseCtxt with
    defPath := fun d => List.replicate d "x",
    defPathOption := fun d => some (List.replicate d "x"),
    implTraitRef := fun d => if d = 5 then some (1, [.adt 77 []]) else none }

/-- A record as produced by directly lowering the impl with id 2 under
the repetition path oracle. -/
def c2wTi : TraitImpl :=
  { impl_path := ["x", "x"], typ_params := [], trait_path := ["x"], trait_typ_args := [],
    impl_paths := [], owning_module := some [], auto_imported := false }

def c2wKrate : KrateX := { initKrate with trait_impls := [c2wTi] }

def c2wEi : ExternalInfo := ⟨[], [], [], [], [2], []⟩

def StSame (a b : St) : Prop :=
  b.vir.modules.map Module.path = a.vir.modules.map Module.path
  ∧ b.ext.trait_id_set = a.ext.trait_id_set

/-- A compilation unit with no top-level items (for the concrete
`crate_to_vir` runs). -/
def c9Crate : HirCrate :=
  { rootDefId := 0, rootSpan := 0, rootItems := [] }

/-- The result triple of the trivial `crate_to_vir` run. -/
def c9Res : KrateX × ItemToModuleMap × ExternalInfo :=
  (crate_to_vir baseCtxt [] c9Crate).toOption.getD
    (initKrate, fun _ => none, initExternalInfo baseCtxt)

/-- The syntactic module-declaration test. -/
def ItemKind.isModDecl : ItemKind → Bool
  | .modDecl => true
  | _ => false

/-- The result triple of `crate_to_vir` on the external-top-module unit. -/
def c8Res : KrateX × ItemToModuleMap × ExternalInfo :=
  (crate_to_vir c1Ctxt [] c8Crate).toOption.getD
    (initKrate, fun _ => none, initExternalInfo c1Ctxt)

/-- C1: the claim says every declaration transitively nested in an
external container maps to `None` in the declaration→module map and is
skipped.  The code violates this: in `crate_to_vir`, a non-external
module nested inside an external module is visited as its own owner
*after* the external module (owners are enumerated in pre-order), is
registered as a module, and overwrites its children's `None` entries with
`Some(its path)` — so the function `f` in
`#[verifier::external] mod outer { mod inner { fn f() {} } }` is mapped
to `Some(inner)` and is lowered rather than skipped, contradicting the
code's own comment "Recursively mark every item in the module external,
even in nested modules". -/
theorem c1_nested_item_escapes_external_module :
    resultMap (crate_to_vir c1Ctxt [] c1Crate) 3 = some (some ["c", "outer", "inner"])
    ∧ (resultKrate (crate_to_vir c1Ctxt [] c1Crate)).functions.map (fun f => f.name)
        = [["c", "outer", "inner", "f"]]
    ∧ (resultKrate (crate_to_vir c1Ctxt [] c1Crate)).modules.map (fun m => m.path)
        = [["c"], ["c", "outer", "inner"]] := by
  refine ⟨rfl, rfl, rfl⟩

/-- C2, counterexample: after a full pass on a crate with a local trait
`T { m }`, a directly-lowered impl `I : T`, and one
`external_fn_specification` proxy targeting `I::m`, the output krate
holds *two* trait-implementation records with the same identity path
`I` — the external-function-specification reconciliation skips only
implementations collected by the Harvester, not directly-lowered ones. -/
theorem c2_reconciliation_duplicates_local_impl :
    ((resultKrate (crate_to_vir c2Ctxt [] c2Crate)).trait_impls.map
        (fun t => t.impl_path)).count ["c", "I"] = 2
    ∧ ¬ ((resultKrate (crate_to_vir c2Ctxt [] c2Crate)).trait_impls.map
        (fun t => t.impl_path)).Nodup := by
  constructor
  · rfl
  · decide

/-- C8, counterexample: the claim says the immediate children of the
crate root are mapped to `Some(root path)`; but an immediate child that
is itself an external-marked module is remapped to `None` by its own
owner visit, so its final map entry is `Some(None)`. -/
theorem c8_external_module_child_not_mapped_to_root :
    resultMap (crate_to_vir c1Ctxt [] c8Crate) 1 = some none
    ∧ (some none : Option (Option Path)) ≠ some (some ["c"]) := by
  refine ⟨rfl, by decide⟩

/-- C4: a declaration whose syntactic kind is not explicitly listed by
the dispatcher (an unrecognized form, an opaque type of non-async
origin, or an auto/`unsafe` trait), not marked external (and carrying
none of the attribute markers intercepted earlier), makes `check_item`
return the hard unsupported-construct error rather than silently
succeeding. -/
theorem c4_unrecognized_kind_hard_error (ctxt : Context) (st : St)
    (mp : Option (Option Path)) (item : Item)
    (h1 : item.kind.unrecognized = true)
    (hext : item.vattrs.is_external = false)
    (hrev : item.vattrs.internal_reveal_fn = false)
    (hfn : item.vattrs.external_fn_specification = false)
    (hty : item.vattrs.external_type_specification = false) :
    check_item ctxt st mp item = .error (.unsupported item.span "unsupported item") := by
  obtain ⟨did, span, vattrs, kind⟩ := item
  simp only [ItemKind.unrecognized] at h1
  simp only [check_item, hrev, hfn, hty, hext]
  cases kind <;> simp_all [ItemKind.unrecognized]
  case traitDecl a u ms b => cases a <;> cases u <;> simp_all

/-- C4, witness: `check_item` on a concrete unrecognized non-external
declaration. -/
theorem c4_unrecognized_kind_hard_error_witness :
    check_item baseCtxt emptySt none ⟨0, 5, {}, .otherItem 0⟩
      = .error (.unsupported 5 "unsupported item") :=
  c4_unrecognized_kind_hard_error baseCtxt emptySt none ⟨0, 5, {}, .otherItem 0⟩
    rfl rfl rfl rfl rfl

/-- C10: a declaration carrying `external_fn_specification` whose kind is
not a function makes `check_item` fail with the misplaced-attribute
error, and a declaration carrying `external_type_specification` whose
kind is not a struct fails with a hard error — a distinct message for
enums directing them to a single-field proxy struct — with no
hypothesis at all on the external marking. -/
theorem c10_misplaced_specification_attribute_errors (ctxt : Context) (st : St)
    (mp : Option (Option Path)) (item : Item)
    (hrev : item.vattrs.internal_reveal_fn = false) :
    (item.vattrs.external_fn_specification = true → item.kind.isFn = false →
      check_item ctxt st mp item =
        .error (.errSpan item.span "`external_fn_specification` attribute not supported here"))
    ∧ (item.vattrs.external_fn_specification = false →
        item.vattrs.external_type_specification = true → item.kind.isStruct = false →
        (item.kind.isEnum = true →
          check_item ctxt st mp item = .error (.errSpan item.span
            "`external_type_specification` proxy type should use a struct with a single field to declare the external type (even if the external type is an enum)"))
        ∧ (item.kind.isEnum = false →
          check_item ctxt st mp item = .error (.errSpan item.span
            "`external_type_specification` attribute not supported here")))
    ∧ "`external_type_specification` proxy type should use a struct with a single field to declare the external type (even if the external type is an enum)"
        ≠ "`external_type_specification` attribute not supported here" := by
  refine ⟨?_, ?_, by decide⟩
  · intro hfs hk
    simp only [check_item, hrev, hfs, hk]
    simp
  · intro hfs hts hk
    refine ⟨?_, ?_⟩
    · intro he
      simp only [check_item, hrev, hfs, hts, hk, he]
      simp
    · intro he
      simp only [check_item, hrev, hfs, hts, hk, he]
      simp

/-- Bind of a successful `Except` computation. -/
theorem exceptBind_ok {α β : Type} (a : α) (f : α → Except Err β) :
    (Except.ok a >>= f) = f a := rfl

/-- Bind of a failed `Except` computation. -/
theorem exceptBind_err {α β : Type} (e : Err) (f : α → Except Err β) :
    ((Except.error e : Except Err α) >>= f) = Except.error e := rfl

/-- `structuralIgnoredFns` on a block whose self-taking `Fn` item
references all resolve to `Fn` impl items returns exactly those methods,
in order. -/
theorem structuralIgnoredFns_ok (items : List ImplItemRef)
    (h : ∀ r ∈ items, r.kind = .fn true → r.itemKind = .fn) :
    structuralIgnoredFns items
      = .ok ((items.filter (fun r => r.kind == AssocItemKind.fn true)).map
          (fun r => (r.did, r.span))) := by
  induction items with
  | nil => rfl
  | cons r rs ih =>
    have hrs : ∀ x ∈ rs, x.kind = .fn true → x.itemKind = .fn :=
      fun x hx => h x (List.mem_cons_of_mem _ hx)
    have ih' := ih hrs
    match hk : r.kind with
    | .fn true =>
      have hik : r.itemKind = .fn := h r (List.mem_cons_self _ _) hk
      simp [structuralIgnoredFns, hk, hik, ih', List.filter_cons, exceptBind_ok]
    | .fn false =>
      simp [structuralIgnoredFns, hk, ih', List.filter_cons]
    | .type =>
      simp [structuralIgnoredFns, hk, ih', List.filter_cons]
    | .otherAssoc =>
      simp [structuralIgnoredFns, hk, ih', List.filter_cons]

/-- C6: for an impl block of the derived-structural marker trait, if the
self ADT with its generic arguments replaced by the never type is not
shallowly structural according to the oracle, `check_item` fails with a
hard error naming the type; if it is, the block is accepted with no VIR
output (methods are not lowered) and every method (self-taking `Fn`
item) is recorded in the erasure-ignored function list. -/
theorem c6_structural_marker_check (ctxt : Context) (st : St) (mp : Option (Option Path))
    (item : Item) (impll : ImplBlock) (tr : TraitRefD) (d : DefId) (a : DefId)
    (as : List Ty)
    (hkind : item.kind = .implBlock impll)
    (hattrs : item.vattrs = {})
    (hof : impll.ofTrait = some tr)
    (huns : impll.unsafety = false)
    (hmarker : ctxt.verusItem tr.traitDefId = some .markerStructural)
    (hrust : ctxt.rustItem tr.traitDefId = none)
    (hsealed : ctxt.isSealed tr.traitDefId = false)
    (hself : impll.selfTy = .resolvedPath d)
    (hty : ctxt.typeOf d = .adt a as) :
    (ctxt.isStructuralEqShallow (.adt a (as.map fun _ => .never)) = false →
      check_item ctxt st mp item = .error (.errSpan item.span
        ("structural impl for non-structural type " ++ (Ty.adt a as).debugStr)))
    ∧ (ctxt.isStructuralEqShallow (.adt a (as.map fun _ => .never)) = true →
       (∀ r ∈ impll.items, r.kind = .fn true → r.itemKind = .fn) →
       check_item ctxt st mp item = .ok { st with erasure := { st.erasure with
         ignored_functions := st.erasure.ignored_functions ++
           ((impll.items.filter (fun r => r.kind == AssocItemKind.fn true)).map
             (fun r => (r.did, r.span))) } }) := by
  constructor
  · intro hstr
    replace hstr : ctxt.isStructuralEqShallow (.adt a (List.replicate as.length .never)) = false := by
      simpa using hstr
    simp only [check_item, hkind, hattrs, check_item_impl, structuralMarkerIgnore, hof, huns,
      hmarker, hrust, hsealed, hself, hty]
    simp [Ty.appliedNever, VerifierAttrs.is_external, exceptBind_ok, exceptBind_err, hstr, hty]
  · intro hstr hfns
    replace hstr : ctxt.isStructuralEqShallow (.adt a (List.replicate as.length .never)) = true := by
      simpa using hstr
    simp only [check_item, hkind, hattrs, check_item_impl, structuralMarkerIgnore, hof, huns,
      hmarker, hrust, hsealed, hself, hty]
    simp [Ty.appliedNever, VerifierAttrs.is_external, exceptBind_ok, exceptBind_err, hstr, hty,
      structuralIgnoredFns_ok impll.items hfns]

/-- C6, witness: the structural marker on a concrete ADT — accepted with
its method erasure-ignored when the oracle says structural, a hard error
naming the type when not. -/
theorem c6_structural_marker_check_witness :
    check_item (c6Ctxt true) emptySt none c6Item
      = .ok { emptySt with erasure := ⟨[(3, 3)], []⟩ }
    ∧ check_item (c6Ctxt false) emptySt none c6Item
      = .error (.errSpan 2 ("structural impl for non-structural type "
          ++ (Ty.adt 10 [.param "A"]).debugStr)) := by
  have h1 := c6_structural_marker_check (c6Ctxt true) emptySt none c6Item c6ImplBlock
    { traitDefId := 50 } 10 10 [.param "A"] rfl rfl rfl rfl rfl rfl rfl rfl rfl
  have h2 := c6_structural_marker_check (c6Ctxt false) emptySt none c6Item c6ImplBlock
    { traitDefId := 50 } 10 10 [.param "A"] rfl rfl rfl rfl rfl rfl rfl rfl rfl
  exact ⟨h1.2 rfl (by decide), h2.1 rfl⟩

/-- A successful `trait_impl_to_vir` produces a record whose identity is
the impl's resolved path, with the requested auto-imported flag and
owning module. -/
theorem trait_impl_to_vir_ok (ctxt : Context) (i : DefId) (mp : Path) (auto : Bool)
    (tp : Path) (tys : List Ty) (ti : TraitImpl)
    (h : trait_impl_to_vir ctxt i mp auto = .ok (tp, tys, ti)) :
    ti.impl_path = ctxt.defPath i ∧ ti.auto_imported = auto ∧ ti.owning_module = some mp := by
  simp only [trait_impl_to_vir] at h
  cases htr : ctxt.implTraitRef i with
  | none => rw [htr] at h; simp at h
  | some pr =>
    obtain ⟨tdid, args⟩ := pr
    rw [htr] at h
    simp only [exceptBind_ok, exceptBind_err] at h
    cases hm : List.mapM ctxt.midTyToVir args with
    | error e => rw [hm] at h; simp [exceptBind_err] at h
    | ok types =>
      rw [hm] at h
      simp only [exceptBind_ok, exceptBind_err] at h
      cases hg : ctxt.checkGenericsBounds i with
      | error e => rw [hg] at h; simp [exceptBind_ok, exceptBind_err] at h
      | ok tps =>
        rw [hg] at h
        simp only [exceptBind_ok, exceptBind_err, Except.ok.injEq, Prod.mk.injEq] at h
        obtain ⟨h1, h2, h3⟩ := h
        subst h3
        simp

/-- `insertMethodNames` succeeds on a duplicate-free specification group
and returns the method-name set in order. -/
theorem insertMethodNames_ok (ctxt : Context) (funs : List (DefId × Span)) (acc : List Ident)
    (h : (acc ++ funs.map (fun f => (ctxt.defPath f.1).lastSegment)).Nodup) :
    insertMethodNames ctxt funs acc
      = .ok (acc ++ funs.map (fun f => (ctxt.defPath f.1).lastSegment)) := by
  induction funs generalizing acc with
  | nil => simp [insertMethodNames]
  | cons f rest ih =>
    obtain ⟨fd, fs⟩ := f
    have hseg : (ctxt.defPath fd).lastSegment ∉ acc := by
      intro hmem
      rw [List.nodup_append] at h
      exact h.2.2 hmem (by simp)
    rw [insertMethodNames, if_neg hseg]
    have := ih (acc ++ [(ctxt.defPath fd).lastSegment]) (by simpa using h)
    rw [this]
    simp

/-- `insertMethodNames` fails with the duplicate-specification error when
the group names some method twice. -/
theorem insertMethodNames_dup (ctxt : Context) (funs : List (DefId × Span)) (acc : List Ident)
    (hacc : acc.Nodup)
    (h : ¬ (acc ++ funs.map (fun f => (ctxt.defPath f.1).lastSegment)).Nodup) :
    ∃ sp, insertMethodNames ctxt funs acc
      = .error (.errSpan sp "duplicate external_fn_specification for this method") := by
  induction funs generalizing acc with
  | nil => simp at h; exact absurd hacc h
  | cons f rest ih =>
    obtain ⟨fd, fs⟩ := f
    by_cases hseg : (ctxt.defPath fd).lastSegment ∈ acc
    · exact ⟨fs, by rw [insertMethodNames, if_pos hseg]⟩
    · have hacc' : (acc ++ [(ctxt.defPath fd).lastSegment]).Nodup := by
        simp [List.nodup_append, hacc, hseg]
      have h' : ¬ ((acc ++ [(ctxt.defPath fd).lastSegment]) ++
          rest.map (fun f => (ctxt.defPath f.1).lastSegment)).Nodup := by
        simpa using h
      obtain ⟨sp, hsp⟩ := ih (acc ++ [(ctxt.defPath fd).lastSegment]) hacc' h'
      exact ⟨sp, by rw [insertMethodNames, if_neg hseg]; exact hsp⟩

/-- C5: reconciliation of one external-function-specification group (for
a trait found in the krate): a method specified twice is the hard
duplicate error; a group covering only a strict subset of the trait's
methods (no associated types) is a hard error naming a missing method;
exact coverage with the implementation not already collected appends
exactly one record, with `auto_imported = false`. -/
theorem c5_external_fn_specification_reconciliation (ctxt : Context) (trait_map : List TraitDecl) (collected : List DefId)
    (krate : KrateX) (g : SpecGroup) (traitt : TraitDecl) (tdid : DefId) (args : List Ty)
    (f0 : DefId × Span) (rest : List (DefId × Span))
    (htr : ctxt.implTraitRef g.implDefId = some (tdid, args))
    (hfind : trait_map.find? (fun t => t.name == ctxt.defPath tdid) = some traitt)
    (hfuns : g.funs = f0 :: rest) :
    (¬ (g.funs.map (fun f => (ctxt.defPath f.1).lastSegment)).Nodup →
      ∃ sp, reconcileGroup ctxt trait_map collected krate g
        = .error (.errSpan sp "duplicate external_fn_specification for this method"))
    ∧ ((g.funs.map (fun f => (ctxt.defPath f.1).lastSegment)).Nodup →
       traitt.assoc_typs_bounds = 0 →
       (∃ m ∈ traitt.methods,
          m.lastSegment ∉ g.funs.map (fun f => (ctxt.defPath f.1).lastSegment)) →
       ∃ missing ∈ traitt.methods,
         missing.lastSegment ∉ g.funs.map (fun f => (ctxt.defPath f.1).lastSegment)
         ∧ reconcileGroup ctxt trait_map collected krate g
           = .error (.errSpan f0.2
             ("using external_fn_specification for this function requires you to specify all other functions for the same trait impl, but the method `"
               ++ missing.lastSegment ++ "` is missing")))
    ∧ ((g.funs.map (fun f => (ctxt.defPath f.1).lastSegment)).Nodup →
       traitt.assoc_typs_bounds = 0 →
       (∀ m ∈ traitt.methods,
          m.lastSegment ∈ g.funs.map (fun f => (ctxt.defPath f.1).lastSegment)) →
       g.implDefId ∉ collected →
       ∀ tp tys ti,
         trait_impl_to_vir ctxt g.implDefId g.implPathKey.popSegment false = .ok (tp, tys, ti) →
         reconcileGroup ctxt trait_map collected krate g
           = .ok { krate with trait_impls := krate.trait_impls ++ [ti] }
           ∧ ti.auto_imported = false) := by
  refine ⟨?_, ?_, ?_⟩
  · intro hdup
    obtain ⟨sp, hins⟩ := insertMethodNames_dup ctxt g.funs [] List.nodup_nil (by simpa using hdup)
    rw [hfuns] at hins
    refine ⟨sp, ?_⟩
    simp [reconcileGroup, htr, hfind, hfuns, hins, exceptBind_err]
  · intro hnd hassoc hmiss
    rw [hfuns] at hnd hmiss
    have hins := insertMethodNames_ok ctxt (f0 :: rest) [] (by simpa using hnd)
    simp only [List.nil_append] at hins
    have hfound : (traitt.methods.find? (fun mp =>
        !(((f0 :: rest).map (fun f => (ctxt.defPath f.1).lastSegment)).contains
          mp.lastSegment))).isSome := by
      rw [List.find?_isSome]
      obtain ⟨m, hm, hnotin⟩ := hmiss
      exact ⟨m, hm, by simpa using hnotin⟩
    obtain ⟨missing, hmeq⟩ := Option.isSome_iff_exists.mp hfound
    have hmem := List.mem_of_find?_eq_some hmeq
    have hprop := List.find?_some hmeq
    refine ⟨missing, hmem, by simpa [hfuns] using hprop, ?_⟩
    simp only [reconcileGroup, htr, hfind, hfuns, hins, exceptBind_ok, hassoc]
    rw [hmeq]
    simp
  · intro hnd hassoc hcov hncol tp tys ti hti
    rw [hfuns] at hnd hcov
    have hins := insertMethodNames_ok ctxt (f0 :: rest) [] (by simpa using hnd)
    simp only [List.nil_append] at hins
    have hnone : traitt.methods.find? (fun mp =>
        !(((f0 :: rest).map (fun f => (ctxt.defPath f.1).lastSegment)).contains
          mp.lastSegment)) = none := by
      rw [List.find?_eq_none]
      intro m hm
      intro hcontra
      rw [Bool.not_eq_true'] at hcontra
      have hc : (((f0 :: rest).map (fun f => (ctxt.defPath f.1).lastSegment)).contains
          m.lastSegment) = true := by
        simp only [List.contains, List.elem_eq_mem]
        exact decide_eq_true (hcov m hm)
      rw [hc] at hcontra
      cases hcontra
    have hauto := (trait_impl_to_vir_ok ctxt g.implDefId g.implPathKey.popSegment
      false tp tys ti hti).2.1
    refine ⟨?_, hauto⟩
    simp only [reconcileGroup, htr, hfind, hfuns, hins, exceptBind_ok, hassoc]
    rw [hnone]
    simp [hncol, hti, exceptBind_ok]

/-- C5, witness: a concrete group exactly covering the one-method trait
`T` synthesizes exactly one non-auto-imported record. -/
theorem c5_external_fn_specification_reconciliation_witness :
    reconcileGroup c2Ctxt [c5TraitDecl] [] initKrate c5Group
      = .ok { initKrate with trait_impls := [c5TiW] } := by
  have h := c5_external_fn_specification_reconciliation c2Ctxt [c5TraitDecl] [] initKrate
    c5Group c5TraitDecl 1 [.adt 10 []] (3, 4) [] rfl rfl rfl
  exact (h.2.2 (by decide) rfl (by decide) (by decide) ["c", "T"] [.adt 10 []] c5TiW rfl).1

/-- Lookup after insert on the association-list map. -/
theorem assocGet_put (m : List (DefId × Bool)) (k : DefId) (b : Bool) (q : DefId) :
    assocGet (assocPut m k b) q = if q = k then some b else assocGet m q := by
  simp only [assocGet, assocPut]
  by_cases hq : q = k
  · subst hq
    simp [List.find?_cons]
  · have hkq : (k == q) = false := beq_eq_false_iff_ne.mpr (fun h => hq h.symm)
    rw [if_neg hq]
    simp only [List.find?_cons, hkq]
    congr 1
    induction m with
    | nil => rfl
    | cons a rest ih =>
      obtain ⟨a1, a2⟩ := a
      by_cases ha : a1 = k
      · subst ha
        rw [List.filter_cons_of_neg (by simp)]
        simp only [List.find?_cons, hkq]
        exact ih
      · rw [List.filter_cons_of_pos (by simpa using ha)]
        by_cases haq : a1 = q
        · subst haq
          simp [List.find?_cons]
        · have h1 : (a1 == q) = false := beq_eq_false_iff_ne.mpr haq
          simp only [List.find?_cons, h1]
          exact ih

/-- On a coherent cache, `has_type_id` answers exactly "is the resolved
path a known datatype path", touches only the cache, and preserves
coherence. -/
theorem has_type_id_spec (ctxt : Context) (ei : ExternalInfo) (d : DefId)
    (h : memoCoherent ctxt ei) :
    (ExternalInfo.has_type_id ctxt ei d).1 = decide (ctxt.defPath d ∈ ei.type_paths)
    ∧ (ExternalInfo.has_type_id ctxt ei d).2
        = { ei with type_id_map := (ExternalInfo.has_type_id ctxt ei d).2.type_id_map }
    ∧ memoCoherent ctxt (ExternalInfo.has_type_id ctxt ei d).2 := by
  unfold ExternalInfo.has_type_id
  cases hc : assocGet ei.type_id_map d with
  | none =>
    refine ⟨rfl, rfl, ?_⟩
    intro q bq hq
    simp only at hq
    rw [assocGet_put] at hq
    by_cases hqd : q = d
    · subst hqd
      rw [if_pos rfl] at hq
      cases hq
      rfl
    · rw [if_neg hqd] at hq
      exact h q bq hq
  | some b =>
    exact ⟨(h d b hc).symm ▸ rfl, rfl, h⟩

/-- The known-type scan touches only the memo cache, preserves its
coherence, and answers false whenever the scanned list contains an
unknown node. -/
theorem tyNodesKnown_props (ctxt : Context) :
    ∀ (L : List Ty) (ei : ExternalInfo), memoCoherent ctxt ei →
    (tyNodesKnown ctxt ei L).2
        = { ei with type_id_map := (tyNodesKnown ctxt ei L).2.type_id_map }
    ∧ memoCoherent ctxt (tyNodesKnown ctxt ei L).2
    ∧ ((∃ t ∈ L, tyNodeUnknown ctxt ei.type_paths t = true) →
        (tyNodesKnown ctxt ei L).1 = false) := by
  intro L
  induction L with
  | nil =>
    intro ei h
    exact ⟨rfl, h, by simp⟩
  | cons t ts ih =>
    intro ei h
    match t with
    | .adt d args =>
      obtain ⟨h1, h2, h3⟩ := has_type_id_spec ctxt ei d h
      have htp : (ExternalInfo.has_type_id ctxt ei d).2.type_paths = ei.type_paths := by
        rw [h2]
      rcases hb : (ExternalInfo.has_type_id ctxt ei d).1 with _ | _
      · -- unknown: known = false, stop
        have : tyNodesKnown ctxt ei (Ty.adt d args :: ts)
            = (false, (ExternalInfo.has_type_id ctxt ei d).2) := by
          simp only [tyNodesKnown]
          rw [← hb]
          simp [hb]
        rw [this]
        refine ⟨by rw [h2], h3, fun _ => rfl⟩
      · -- known: continue
        have hstep : tyNodesKnown ctxt ei (Ty.adt d args :: ts)
            = tyNodesKnown ctxt (ExternalInfo.has_type_id ctxt ei d).2 ts := by
          simp only [tyNodesKnown]
          rw [← hb]
          simp [hb]
        obtain ⟨ih1, ih2, ih3⟩ := ih (ExternalInfo.has_type_id ctxt ei d).2 h3
        rw [hstep]
        refine ⟨?_, ih2, ?_⟩
        · rw [ih1, h2]
        · intro hex
          rcases hex with ⟨u, hu, hunk⟩
          rcases List.mem_cons.mp hu with rfl | hu2
          · exfalso
            rw [h1] at hb
            simp only [tyNodeUnknown] at hunk
            rw [Bool.not_eq_true'] at hunk
            rw [hunk] at hb
            cases hb
          · exact ih3 ⟨u, hu2, by rwa [htp]⟩
    | .param n =>
      obtain ⟨ih1, ih2, ih3⟩ := ih ei h
      refine ⟨?_, ?_, ?_⟩
      · simpa [tyNodesKnown] using ih1
      · simpa [tyNodesKnown] using ih2
      · intro hex
        rcases hex with ⟨u, hu, hunk⟩
        rcases List.mem_cons.mp hu with rfl | hu2
        · simp [tyNodeUnknown] at hunk
        · simpa [tyNodesKnown] using ih3 ⟨u, hu2, hunk⟩
    | .never =>
      obtain ⟨ih1, ih2, ih3⟩ := ih ei h
      refine ⟨?_, ?_, ?_⟩
      · simpa [tyNodesKnown] using ih1
      · simpa [tyNodesKnown] using ih2
      · intro hex
        rcases hex with ⟨u, hu, hunk⟩
        rcases List.mem_cons.mp hu with rfl | hu2
        · simp [tyNodeUnknown] at hunk
        · simpa [tyNodesKnown] using ih3 ⟨u, hu2, hunk⟩
    | .prim recognized code =>
      rcases recognized with _ | _
      · refine ⟨?_, ?_, ?_⟩
        · simp [tyNodesKnown]
        · simpa [tyNodesKnown] using h
        · intro _
          simp [tyNodesKnown]
      · obtain ⟨ih1, ih2, ih3⟩ := ih ei h
        refine ⟨?_, ?_, ?_⟩
        · simpa [tyNodesKnown] using ih1
        · simpa [tyNodesKnown] using ih2
        · intro hex
          rcases hex with ⟨u, hu, hunk⟩
          rcases List.mem_cons.mp hu with rfl | hu2
          · simp [tyNodeUnknown] at hunk
          · simpa [tyNodesKnown] using ih3 ⟨u, hu2, hunk⟩

/-- One harvester step on a coherent state: the bookkeeping changes only
in the memo cache (staying coherent), and the output either is untouched
or gains exactly one auto-imported record for the processed candidate,
which is then marked collected. -/
theorem harvestStep_spec (ctxt : Context) (krate : KrateX) (ei : ExternalInfo)
    (collected : List DefId) (i : DefId) (h : memoCoherent ctxt ei) :
    ((harvestStep ctxt (krate, ei, collected) i).2.1
        = { ei with type_id_map := (harvestStep ctxt (krate, ei, collected) i).2.1.type_id_map }
      ∧ memoCoherent ctxt (harvestStep ctxt (krate, ei, collected) i).2.1)
    ∧ (((harvestStep ctxt (krate, ei, collected) i).1 = krate
        ∧ (harvestStep ctxt (krate, ei, collected) i).2.2 = collected)
      ∨ (∃ ti, (harvestStep ctxt (krate, ei, collected) i).1
            = { krate with trait_impls := krate.trait_impls ++ [ti] }
          ∧ ti.auto_imported = true ∧ ti.impl_path = ctxt.defPath i
          ∧ (harvestStep ctxt (krate, ei, collected) i).2.2 = setInsert collected i)) := by
  simp only [harvestStep]
  cases htr : ctxt.implTraitRef i with
  | none => exact ⟨⟨rfl, h⟩, Or.inl ⟨rfl, rfl⟩⟩
  | some pr =>
    obtain ⟨tdid, args⟩ := pr
    rcases h1 : mid_ty_filter_for_external_impls ctxt ei args with ⟨ok1, ei1⟩
    have h1t : tyNodesKnown ctxt ei (Ty.walkListAux args) = (ok1, ei1) := by
      simpa only [mid_ty_filter_for_external_impls] using h1
    have e1 := tyNodesKnown_props ctxt (Ty.walkListAux args) ei h
    rw [h1t] at e1
    obtain ⟨e1eta, e1coh, _⟩ := e1
    simp only at e1eta e1coh
    dsimp only
    rw [h1]
    dsimp only
    cases ok1 with
    | false => exact ⟨⟨e1eta, e1coh⟩, Or.inl ⟨rfl, rfl⟩⟩
    | true =>
      rcases h2 : mid_generics_filter_for_external_impls ctxt i ei1 with ⟨ok2, ei2⟩
      have h2t : tyNodesKnown ctxt ei1 (Ty.walkListAux (ctxt.implGenericsBoundTys i))
          = (ok2, ei2) := by
        simpa only [mid_generics_filter_for_external_impls] using h2
      have e2 := tyNodesKnown_props ctxt (Ty.walkListAux (ctxt.implGenericsBoundTys i)) ei1 e1coh
      rw [h2t] at e2
      obtain ⟨e2eta, e2coh, _⟩ := e2
      simp only at e2eta e2coh
      have heta : ei2 = { ei with type_id_map := ei2.type_id_map } := by
        rw [e2eta, e1eta]
      cases ok2 with
      | false => exact ⟨⟨heta, e2coh⟩, Or.inl ⟨rfl, rfl⟩⟩
      | true =>
        simp only [Bool.not_true, Bool.false_eq_true, if_false]
        cases hti : trait_impl_to_vir ctxt i (ctxt.defPath i).popSegment true with
        | error e => exact ⟨⟨heta, e2coh⟩, Or.inl ⟨rfl, rfl⟩⟩
        | ok v =>
          obtain ⟨tp, tys, ti⟩ := v
          obtain ⟨hpath, hauto, _⟩ :=
            trait_impl_to_vir_ok ctxt i (ctxt.defPath i).popSegment true tp tys ti hti
          exact ⟨⟨heta, e2coh⟩, Or.inr ⟨ti, rfl, hauto, hpath, rfl⟩⟩

/-- A candidate with an unknown participating type (in its trait
reference's type arguments or its own generic bounds) is skipped by the
harvester step: no record, not collected. -/
theorem harvestStep_bad (ctxt : Context) (krate : KrateX) (ei : ExternalInfo)
    (collected : List DefId) (bad tdid : DefId) (args : List Ty)
    (h : memoCoherent ctxt ei)
    (htr : ctxt.implTraitRef bad = some (tdid, args))
    (hbad : ∃ t ∈ Ty.walkListAux args ++ Ty.walkListAux (ctxt.implGenericsBoundTys bad),
        tyNodeUnknown ctxt ei.type_paths t = true) :
    (harvestStep ctxt (krate, ei, collected) bad).1 = krate
    ∧ (harvestStep ctxt (krate, ei, collected) bad).2.2 = collected := by
  simp only [harvestStep, htr]
  obtain ⟨t, ht, hunk⟩ := hbad
  rcases h1 : mid_ty_filter_for_external_impls ctxt ei args with ⟨ok1, ei1⟩
  have h1t : tyNodesKnown ctxt ei (Ty.walkListAux args) = (ok1, ei1) := by
    simpa only [mid_ty_filter_for_external_impls] using h1
  have e1 := tyNodesKnown_props ctxt (Ty.walkListAux args) ei h
  rw [h1t] at e1
  obtain ⟨e1eta, e1coh, e1unk⟩ := e1
  simp only at e1eta e1coh e1unk
  rcases List.mem_append.mp ht with hta | htg
  · have hfalse : ok1 = false := e1unk ⟨t, hta, hunk⟩
    subst hfalse
    exact ⟨rfl, rfl⟩
  · cases ok1 with
    | false => exact ⟨rfl, rfl⟩
    | true =>
      rcases h2 : mid_generics_filter_for_external_impls ctxt bad ei1 with ⟨ok2, ei2⟩
      have h2t : tyNodesKnown ctxt ei1 (Ty.walkListAux (ctxt.implGenericsBoundTys bad))
          = (ok2, ei2) := by
        simpa only [mid_generics_filter_for_external_impls] using h2
      have e2 := tyNodesKnown_props ctxt (Ty.walkListAux (ctxt.implGenericsBoundTys bad)) ei1 e1coh
      rw [h2t] at e2
      obtain ⟨_, _, e2unk⟩ := e2
      simp only at e2unk
      have htp : ei1.type_paths = ei.type_paths := by rw [e1eta]
      have hfalse : ok2 = false := e2unk ⟨t, htg, by rwa [htp]⟩
      subst hfalse
      exact ⟨rfl, rfl⟩

/-- Membership in `setInsert`. -/
theorem mem_setInsert {a b : DefId} {xs : List DefId} :
    a ∈ setInsert xs b ↔ a = b ∨ a ∈ xs := by
  unfold setInsert
  split
  · constructor
    · exact fun h => Or.inr h
    · rintro (rfl | h)
      · assumption
      · exact h
  · simp [List.mem_cons]

/-- The harvest loop never collects nor emits a record for a candidate
with an unknown participating type, whatever the candidate list. -/
theorem harvestFold_bad (ctxt : Context) (bad tdid : DefId) (args : List Ty) (tps : List Path)
    (hinj : ∀ a b, ctxt.defPath a = ctxt.defPath b → a = b)
    (htr : ctxt.implTraitRef bad = some (tdid, args))
    (hbadt : ∃ t ∈ Ty.walkListAux args ++ Ty.walkListAux (ctxt.implGenericsBoundTys bad),
        tyNodeUnknown ctxt tps t = true) :
    ∀ (autos : List DefId) (krate : KrateX) (ei : ExternalInfo) (collected : List DefId),
    ei.type_paths = tps → memoCoherent ctxt ei → bad ∉ collected →
    bad ∉ (autos.foldl (harvestStep ctxt) (krate, ei, collected)).2.2
    ∧ ∃ added, (autos.foldl (harvestStep ctxt) (krate, ei, collected)).1.trait_impls
        = krate.trait_impls ++ added
      ∧ ∀ r ∈ added, r.auto_imported = true ∧ r.impl_path ≠ ctxt.defPath bad := by
  intro autos
  induction autos with
  | nil =>
    intro krate ei collected htps hcoh hnc
    exact ⟨hnc, [], by simp, by simp⟩
  | cons i rest ih =>
    intro krate ei collected htps hcoh hnc
    obtain ⟨⟨seta, scoh⟩, scase⟩ := harvestStep_spec ctxt krate ei collected i hcoh
    have htps1 : (harvestStep ctxt (krate, ei, collected) i).2.1.type_paths = tps := by
      rw [seta]
      exact htps
    have hnc1 : bad ∉ (harvestStep ctxt (krate, ei, collected) i).2.2 := by
      by_cases hib : i = bad
      · subst hib
        have hskip := harvestStep_bad ctxt krate ei collected i tdid args hcoh htr
          (htps ▸ hbadt)
        rw [hskip.2]
        exact hnc
      · rcases scase with ⟨_, hc⟩ | ⟨ti, _, _, _, hc⟩
        · rw [hc]
          exact hnc
        · rw [hc]
          intro hmem
          rcases mem_setInsert.mp hmem with rfl | hmem2
          · exact hib rfl
          · exact hnc hmem2
    obtain ⟨ihnc, added2, ihimpls, ihprops⟩ :=
      ih (harvestStep ctxt (krate, ei, collected) i).1
        (harvestStep ctxt (krate, ei, collected) i).2.1
        (harvestStep ctxt (krate, ei, collected) i).2.2 htps1 scoh hnc1
    have hfold : (i :: rest).foldl (harvestStep ctxt) (krate, ei, collected)
        = rest.foldl (harvestStep ctxt)
            ((harvestStep ctxt (krate, ei, collected) i).1,
             (harvestStep ctxt (krate, ei, collected) i).2.1,
             (harvestStep ctxt (krate, ei, collected) i).2.2) := rfl
    rw [hfold]
    refine ⟨ihnc, ?_⟩
    rcases scase with ⟨hk, _⟩ | ⟨ti, hk, hauto, hpath, _⟩
    · refine ⟨added2, ?_, ihprops⟩
      rw [ihimpls, hk]
    · have hib : i ≠ bad := by
        intro hib
        subst hib
        have hskip := harvestStep_bad ctxt krate ei collected i tdid args hcoh htr
          (htps ▸ hbadt)
        rw [hskip.1] at hk
        have := congrArg (fun k => k.trait_impls.length) hk
        simp at this
      refine ⟨ti :: added2, ?_, ?_⟩
      · rw [ihimpls, hk]
        simp
      · intro r hr
        rcases List.mem_cons.mp hr with rfl | hr2
        · exact ⟨hauto, by rw [hpath]; exact fun hh => hib (hinj i bad hh)⟩
        · exact ihprops r hr2

/-- C3: a harvester candidate whose trait reference has a type argument
containing a type unknown to the verifier (or such a type in its own
generic bounds) is never collected by the harvest loop and contributes
no trait-implementation record, for any ordering and content of the
candidate list. -/
theorem c3_harvester_safety_filter (ctxt : Context) (autos : List DefId) (krate : KrateX)
    (ei : ExternalInfo) (bad tdid : DefId) (args : List Ty)
    (hinj : ∀ a b, ctxt.defPath a = ctxt.defPath b → a = b)
    (hmemo : memoCoherent ctxt ei)
    (htr : ctxt.implTraitRef bad = some (tdid, args))
    (hbad : ∃ t ∈ Ty.walkListAux args ++ Ty.walkListAux (ctxt.implGenericsBoundTys bad),
        tyNodeUnknown ctxt ei.type_paths t = true) :
    bad ∉ (harvestImpls ctxt autos krate ei).2.2
    ∧ ∃ added, (harvestImpls ctxt autos krate ei).1.trait_impls
        = krate.trait_impls ++ added
      ∧ ∀ r ∈ added, r.auto_imported = true ∧ r.impl_path ≠ ctxt.defPath bad :=
  harvestFold_bad ctxt bad tdid args ei.type_paths hinj htr hbad autos krate ei []
    rfl hmemo (by simp)

/-- C3, witness: a concrete candidate whose trait reference mentions an
ADT with an unknown path is neither collected nor emitted. -/
theorem c3_harvester_safety_filter_witness :
    5 ∉ (harvestImpls c3Ctxt [5] initKrate ⟨[], [], [], [], [], []⟩).2.2
    ∧ (harvestImpls c3Ctxt [5] initKrate ⟨[], [], [], [], [], []⟩).1.trait_impls = [] := by
  have h := c3_harvester_safety_filter c3Ctxt [5] initKrate ⟨[], [], [], [], [], []⟩ 5 1
    [.adt 77 []]
    (fun a b hh => by simpa [c3Ctxt] using congrArg List.length hh)
    (by intro d b hb; simp [assocGet] at hb)
    rfl
    ⟨.adt 77 [], by simp [Ty.walkListAux, Ty.walk], rfl⟩
  exact ⟨h.1, rfl⟩

/-- One candidate-enumeration step preserves the candidate-list
invariant: candidates are duplicate-free, all marked considered, and
none already processed internally. -/
theorem autoImportConsider_inv (ctxt : Context) (internal : List DefId)
    (new_traits : List Path) (path : Path) (acc : List DefId × List DefId) (i : DefId)
    (h : acc.2.Nodup ∧ (∀ x ∈ acc.2, x ∈ acc.1) ∧ (∀ x ∈ acc.2, x ∉ internal)) :
    ((autoImportConsider ctxt internal new_traits path acc i).2.Nodup
      ∧ (∀ x ∈ (autoImportConsider ctxt internal new_traits path acc i).2,
          x ∈ (autoImportConsider ctxt internal new_traits path acc i).1)
      ∧ (∀ x ∈ (autoImportConsider ctxt internal new_traits path acc i).2, x ∉ internal))
    ∧ ∀ x ∈ acc.1, x ∈ (autoImportConsider ctxt internal new_traits path acc i).1 := by
  obtain ⟨cs, as⟩ := acc
  obtain ⟨hnd, hsub, hni⟩ := h
  simp only [autoImportConsider]
  by_cases hc : i ∈ cs
  · simp only [if_pos hc]
    exact ⟨⟨hnd, hsub, hni⟩, fun x hx => hx⟩
  · simp only [if_neg hc]
    by_cases hint : i ∈ internal
    · simp only [if_pos hint]
      exact ⟨⟨hnd, fun x hx => List.mem_cons_of_mem _ (hsub x hx), hni⟩,
        fun x hx => List.mem_cons_of_mem _ hx⟩
    · simp only [if_neg hint]
      by_cases hkeep : (decide (path ∈ new_traits) || ctxt.isLocalCrate i) = true
      · simp only [if_pos hkeep]
        refine ⟨⟨?_, ?_, ?_⟩, fun x hx => List.mem_cons_of_mem _ hx⟩
        · rw [List.nodup_append]
          refine ⟨hnd, List.nodup_singleton _, ?_⟩
          intro x hx
          simp only [List.mem_singleton]
          intro hxz
          subst hxz
          exact hc (hsub x hx)
        · intro x hx
          rcases List.mem_append.mp hx with hx2 | hx2
          · exact List.mem_cons_of_mem _ (hsub x hx2)
          · rw [List.mem_singleton] at hx2
            subst hx2
            exact List.mem_cons_self _ _
        · intro x hx
          rcases List.mem_append.mp hx with hx2 | hx2
          · exact hni x hx2
          · rw [List.mem_singleton] at hx2
            subst hx2
            exact hint
      · simp only [if_neg hkeep]
        exact ⟨⟨hnd, fun x hx => List.mem_cons_of_mem _ (hsub x hx), hni⟩,
          fun x hx => List.mem_cons_of_mem _ hx⟩

/-- The Harvester's candidate list is duplicate-free and disjoint from
the internally-processed implementation set. -/
theorem computeAutoImports_spec (ctxt : Context) (internal : List DefId)
    (new_traits : List Path) (trait_ids : List DefId) :
    (computeAutoImports ctxt internal new_traits trait_ids).2.Nodup
    ∧ ∀ x ∈ (computeAutoImports ctxt internal new_traits trait_ids).2, x ∉ internal := by
  have inner : ∀ (p : Path) (L : List DefId) (acc : List DefId × List DefId),
      (acc.2.Nodup ∧ (∀ x ∈ acc.2, x ∈ acc.1) ∧ (∀ x ∈ acc.2, x ∉ internal)) →
      ((L.foldl (autoImportConsider ctxt internal new_traits p) acc).2.Nodup
        ∧ (∀ x ∈ (L.foldl (autoImportConsider ctxt internal new_traits p) acc).2,
            x ∈ (L.foldl (autoImportConsider ctxt internal new_traits p) acc).1)
        ∧ (∀ x ∈ (L.foldl (autoImportConsider ctxt internal new_traits p) acc).2,
            x ∉ internal)) := by
    intro p L
    induction L with
    | nil => intro acc h; exact h
    | cons i rest ih =>
      intro acc h
      exact ih _ (autoImportConsider_inv ctxt internal new_traits p acc i h).1
  have outer : ∀ (tids : List DefId) (acc : List DefId × List DefId),
      (acc.2.Nodup ∧ (∀ x ∈ acc.2, x ∈ acc.1) ∧ (∀ x ∈ acc.2, x ∉ internal)) →
      ((tids.foldl (autoImportStep ctxt internal new_traits) acc).2.Nodup
        ∧ (∀ x ∈ (tids.foldl (autoImportStep ctxt internal new_traits) acc).2,
            x ∈ (tids.foldl (autoImportStep ctxt internal new_traits) acc).1)
        ∧ (∀ x ∈ (tids.foldl (autoImportStep ctxt internal new_traits) acc).2,
            x ∉ internal)) := by
    intro tids
    induction tids with
    | nil => intro acc h; exact h
    | cons t rest ih =>
      intro acc h
      exact ih _ (inner (ctxt.defPath t) (ctxt.allImpls t) acc h)
  have base : (([], []) : List DefId × List DefId).2.Nodup
      ∧ (∀ x ∈ (([], []) : List DefId × List DefId).2, x ∈ ([] : List DefId))
      ∧ (∀ x ∈ (([], []) : List DefId × List DefId).2, x ∉ internal) := by
    simp
  obtain ⟨a, b, c⟩ := outer trait_ids ([], []) base
  exact ⟨a, c⟩

/-- The harvest loop preserves distinctness of implementation
identities, given a duplicate-free candidate list whose resolved paths
are fresh for the existing records. -/
theorem harvestFold_nodup (ctxt : Context)
    (hinj : ∀ a b, ctxt.defPath a = ctxt.defPath b → a = b) :
    ∀ (autos : List DefId) (krate : KrateX) (ei : ExternalInfo) (collected : List DefId),
    memoCoherent ctxt ei →
    autos.Nodup →
    (∀ i ∈ autos, ∀ r ∈ krate.trait_impls, r.impl_path ≠ ctxt.defPath i) →
    (krate.trait_impls.map TraitImpl.impl_path).Nodup →
    ((autos.foldl (harvestStep ctxt) (krate, ei, collected)).1.trait_impls.map
        TraitImpl.impl_path).Nodup := by
  intro autos
  induction autos with
  | nil =>
    intro krate ei collected _ _ _ hk
    exact hk
  | cons i rest ih =>
    intro krate ei collected hcoh hnd hfresh hk
    obtain ⟨⟨_, scoh⟩, scase⟩ := harvestStep_spec ctxt krate ei collected i hcoh
    have hfold : (i :: rest).foldl (harvestStep ctxt) (krate, ei, collected)
        = rest.foldl (harvestStep ctxt)
            ((harvestStep ctxt (krate, ei, collected) i).1,
             (harvestStep ctxt (krate, ei, collected) i).2.1,
             (harvestStep ctxt (krate, ei, collected) i).2.2) := rfl
    rw [hfold]
    rcases scase with ⟨hkk, _⟩ | ⟨ti, hkk, _, hpath, _⟩
    · apply ih _ _ _ scoh (List.Nodup.of_cons hnd) _ _
      · intro j hj r hr
        rw [hkk] at hr
        exact hfresh j (List.mem_cons_of_mem _ hj) r hr
      · rw [hkk]
        exact hk
    · apply ih _ _ _ scoh (List.Nodup.of_cons hnd) _ _
      · intro j hj r hr
        rw [hkk] at hr
        rcases List.mem_append.mp hr with hr2 | hr2
        · exact hfresh j (List.mem_cons_of_mem _ hj) r hr2
        · rw [List.mem_singleton] at hr2
          subst hr2
          rw [hpath]
          intro hdd
          have : i = j := hinj i j hdd
          subst this
          exact (List.nodup_cons.mp hnd).1 hj
      · rw [hkk]
        simp only [List.map_append, List.map_cons, List.map_nil]
        rw [List.nodup_append]
        refine ⟨hk, List.nodup_singleton _, ?_⟩
        intro x hx
        simp only [List.mem_singleton]
        intro hxz
        subst hxz
        rcases List.mem_map.mp hx with ⟨r, hr, hrp⟩
        exact hfresh i (List.mem_cons_self _ _) r hr (hrp.trans hpath)

/-- Datatype registration touches only the known-type path set. -/
theorem addKnownDatatypes_eta (imported : List KrateX) (krate : KrateX)
    (ei : ExternalInfo) :
    addKnownDatatypes imported krate ei
      = { ei with type_paths := (addKnownDatatypes imported krate ei).type_paths } := by
  have inner : ∀ (l : List Datatype) (x : ExternalInfo),
      l.foldl (fun e d => { e with type_paths := setInsert e.type_paths d.path }) x
        = { x with type_paths :=
            (l.foldl (fun e d => { e with type_paths := setInsert e.type_paths d.path })
              x).type_paths } := by
    intro l
    induction l with
    | nil => intro x; rfl
    | cons d rest ih =>
      intro x
      simp only [List.foldl_cons]
      rw [ih]
  have outer : ∀ (ks : List KrateX) (x : ExternalInfo),
      ks.foldl (fun e k =>
          k.datatypes.foldl
            (fun e d => { e with type_paths := setInsert e.type_paths d.path }) e) x
        = { x with type_paths :=
            (ks.foldl (fun e k =>
              k.datatypes.foldl
                (fun e d => { e with type_paths := setInsert e.type_paths d.path }) e)
              x).type_paths } := by
    intro ks
    induction ks with
    | nil => intro x; rfl
    | cons k rest ih =>
      intro x
      simp only [List.foldl_cons]
      rw [ih, inner k.datatypes x]
  simp only [addKnownDatatypes]
  rw [inner, outer]

/-- The harvest loop changes the external bookkeeping only in the memo
cache, and keeps it coherent. -/
theorem harvestFold_ei (ctxt : Context) :
    ∀ (autos : List DefId) (krate : KrateX) (ei : ExternalInfo) (collected : List DefId),
    memoCoherent ctxt ei →
    ((autos.foldl (harvestStep ctxt) (krate, ei, collected)).2.1
        = { ei with type_id_map :=
            (autos.foldl (harvestStep ctxt) (krate, ei, collected)).2.1.type_id_map }
      ∧ memoCoherent ctxt (autos.foldl (harvestStep ctxt) (krate, ei, collected)).2.1) := by
  intro autos
  induction autos with
  | nil => intro krate ei collected h; exact ⟨rfl, h⟩
  | cons i rest ih =>
    intro krate ei collected h
    obtain ⟨seta, scoh⟩ := (harvestStep_spec ctxt krate ei collected i h).1
    have hfold : (i :: rest).foldl (harvestStep ctxt) (krate, ei, collected)
        = rest.foldl (harvestStep ctxt)
            ((harvestStep ctxt (krate, ei, collected) i).1,
             (harvestStep ctxt (krate, ei, collected) i).2.1,
             (harvestStep ctxt (krate, ei, collected) i).2.2) := rfl
    rw [hfold]
    obtain ⟨ieta, icoh⟩ := ih (harvestStep ctxt (krate, ei, collected) i).1
      (harvestStep ctxt (krate, ei, collected) i).2.1
      (harvestStep ctxt (krate, ei, collected) i).2.2 scoh
    refine ⟨?_, icoh⟩
    rw [ieta, seta]

/-- C2, amended: after local lowering followed by harvesting (with no
deferred external-function-specification bindings), no two
trait-implementation records share the same identity path: the harvester
skips every implementation already processed internally, considers each
implementation at most once, and each record it appends carries a fresh
identity. -/
theorem c2_no_duplicate_impl_identities (ctxt : Context) (imported : List KrateX)
    (krate : KrateX) (ei : ExternalInfo) (k2 : KrateX) (ei2 : ExternalInfo)
    (hinj : ∀ a b, ctxt.defPath a = ctxt.defPath b → a = b)
    (hdef : ei.external_fn_specification_trait_method_impls = [])
    (hmemo : memoCoherent ctxt (addKnownDatatypes imported krate ei))
    (hnd : (krate.trait_impls.map TraitImpl.impl_path).Nodup)
    (hsrc : ∀ r ∈ krate.trait_impls, ∃ d ∈ ei.internal_trait_impls,
        r.impl_path = ctxt.defPath d)
    (hok : collect_external_trait_impls ctxt imported krate ei = .ok (k2, ei2)) :
    (k2.trait_impls.map TraitImpl.impl_path).Nodup := by
  simp only [collect_external_trait_impls] at hok
  set eiA := addKnownDatatypes imported krate ei with heiA
  have hAfields := addKnownDatatypes_eta imported krate ei
  rw [← heiA] at hAfields
  have hAdef : eiA.external_fn_specification_trait_method_impls = [] := by
    rw [hAfields]
    exact hdef
  have hAint : eiA.internal_trait_impls = ei.internal_trait_impls := by
    rw [hAfields]
  set old_traits := oldTraitNames imported with hold
  set new_traits := newTraitNames old_traits krate with hnew
  set all_trait_ids :=
    (ctxt.foreignTraitIds.filter
      (fun tid => decide (ctxt.defPath tid ∈ old_traits ++ new_traits)))
      ++ eiA.local_trait_ids with hids
  set eiB : ExternalInfo :=
    { eiA with trait_id_set := all_trait_ids.foldl setInsert eiA.trait_id_set } with heiB
  have hBdef : eiB.external_fn_specification_trait_method_impls = [] := hAdef
  have hBmemo : memoCoherent ctxt eiB := hmemo
  have hBint : eiB.internal_trait_impls = ei.internal_trait_impls := hAint
  obtain ⟨hAnd, hAdisj⟩ :=
    computeAutoImports_spec ctxt eiB.internal_trait_impls new_traits all_trait_ids
  have hfresh : ∀ i ∈ (computeAutoImports ctxt eiB.internal_trait_impls new_traits
      all_trait_ids).2, ∀ r ∈ krate.trait_impls, r.impl_path ≠ ctxt.defPath i := by
    intro i hi r hr heq
    obtain ⟨d, hd, hdp⟩ := hsrc r hr
    have hdi : d = i := hinj d i (hdp.symm.trans heq)
    exact (hAdisj i hi) (hBint ▸ (hdi ▸ hd))
  have hmain := harvestFold_nodup ctxt hinj
    (computeAutoImports ctxt eiB.internal_trait_impls new_traits all_trait_ids).2
    krate eiB [] hBmemo hAnd hfresh hnd
  have hdefH : ((computeAutoImports ctxt eiB.internal_trait_impls new_traits
        all_trait_ids).2.foldl (harvestStep ctxt)
        (krate, eiB, [])).2.1.external_fn_specification_trait_method_impls = [] := by
    rw [(harvestFold_ei ctxt _ krate eiB [] hBmemo).1]
    exact hBdef
  simp only [harvestImpls] at hok
  rw [hdefH] at hok
  simp only [buildNewTraitImpls, List.foldlM, exceptBind_ok] at hok
  cases hok
  exact hmain

/-- C2 (amended), witness: a krate holding one directly-lowered record
(identity path of internal impl 2) passes harvesting with its identity
still unduplicated. -/
theorem c2_no_duplicate_impl_identities_witness :
    (c2wKrate.trait_impls.map TraitImpl.impl_path).Nodup :=
  c2_no_duplicate_impl_identities c3Ctxt [] c2wKrate c2wEi c2wKrate c2wEi
    (fun a b hh => by simpa [c3Ctxt] using congrArg List.length hh)
    rfl
    (by intro d b hb; simp [assocGet, addKnownDatatypes, c2wKrate, c2wEi, initKrate] at hb)
    (by simp [c2wKrate, c2wTi, initKrate])
    (by
      intro r hr
      simp only [c2wKrate] at hr
      simp at hr
      exact ⟨2, by simp [c2wEi], by rw [hr]; rfl⟩)
    rfl

/-- `find?` after `updateModuleReveals`: updating the first module with
the given path is visible to a later lookup, and only its reveals slot
changes. -/
theorem find?_updateModuleReveals (ms : List Module) (mp : Path) (funs : List Fun) (M : Module)
    (h : ms.find? (fun m => m.path == mp) = some M) :
    (updateModuleReveals ms mp funs).find? (fun m => m.path == mp)
      = some { M with reveals := some funs } := by
  induction ms with
  | nil => simp [List.find?] at h
  | cons m rest ih =>
    by_cases hp : m.path = mp
    · rw [List.find?_cons_of_pos] at h
      · cases h
        simp [updateModuleReveals, hp, List.find?_cons_of_pos]
      · simp [hp]
    · rw [List.find?_cons_of_neg] at h
      · simp only [updateModuleReveals, if_neg hp]
        rw [List.find?_cons_of_neg]
        · exact ih h
        · simp [hp]
      · simp [hp]

/-- C7: the first module-level `broadcast use` constant of a module
succeeds and attaches exactly the resolved function list to that
module's reveals slot; a second such declaration in the same module is
the hard one-per-module error. -/
theorem c7_broadcast_use_single_reveals (ctxt : Context) (st : St) (item : Item)
    (stmts : List Stmt) (funs : List Fun) (mp : Path) (M : Module)
    (hkind : item.kind = .constDecl 0 0 (.block stmts))
    (hattrs : item.vattrs = { item_broadcast_use := true })
    (hparse : parseBroadcastFuns ctxt item.span stmts = .ok funs)
    (hfind : st.vir.modules.find? (fun m => m.path == mp) = some M)
    (hrev : M.reveals = none) :
    (check_item ctxt st (some (some mp)) item
        = .ok { st with vir := { st.vir with
            modules := updateModuleReveals st.vir.modules mp funs } }
      ∧ (updateModuleReveals st.vir.modules mp funs).find? (fun m => m.path == mp)
          = some { M with reveals := some funs })
    ∧ (∀ st' item₂ stmts₂ funs₂,
        check_item ctxt st (some (some mp)) item = .ok st' →
        item₂.kind = .constDecl 0 0 (.block stmts₂) →
        item₂.vattrs = { item_broadcast_use := true } →
        parseBroadcastFuns ctxt item₂.span stmts₂ = .ok funs₂ →
        check_item ctxt st' (some (some mp)) item₂ =
          .error (.errSpan item₂.span
            "only one module-level `broadcast use` allowed for each module")) := by
  have hmain : check_item ctxt st (some (some mp)) item
      = .ok { st with vir := { st.vir with
          modules := updateModuleReveals st.vir.modules mp funs } } := by
    simp only [check_item, hkind, hattrs, handle_const_or_static]
    simp [hparse, hfind, hrev, VerifierAttrs.is_external]
    rfl
  have hupd := find?_updateModuleReveals st.vir.modules mp funs M hfind
  refine ⟨⟨hmain, hupd⟩, ?_⟩
  intro st' item₂ stmts₂ funs₂ hok hk2 ha2 hp2
  rw [hmain] at hok
  cases hok
  simp only [check_item, hk2, ha2, handle_const_or_static]
  simp [hp2, hupd, VerifierAttrs.is_external]
  rfl

/-- C7, witness: one concrete broadcast-use constant attaches its listed
function; a second one in the same module errors. -/
theorem c7_broadcast_use_single_reveals_witness :
    check_item c7Ctxt c7St (some (some ["c"])) (c7Item 1) = .ok c7StAfter
    ∧ check_item c7Ctxt c7StAfter (some (some ["c"])) (c7Item 2)
        = .error (.errSpan 2 "only one module-level `broadcast use` allowed for each module") := by
  have h := c7_broadcast_use_single_reveals c7Ctxt c7St (c7Item 1) [c7Stmt] [["r100"]]
    ["c"] { path := ["c"], reveals := none } rfl rfl rfl rfl rfl
  exact ⟨by rfl, h.2 c7StAfter (c7Item 2) [c7Stmt] [["r100"]] (by rfl) rfl rfl rfl⟩

/-- C10, witness: the misplaced-attribute errors on a concrete external
module proxy and on a concrete enum proxy. -/
theorem c10_misplaced_specification_attribute_errors_witness :
    check_item baseCtxt emptySt none ⟨0, 7, { external_fn_specification := true }, .modDecl⟩
      = .error (.errSpan 7 "`external_fn_specification` attribute not supported here")
    ∧ check_item baseCtxt emptySt none
        ⟨0, 8, { external_type_specification := true, external := true }, .enumDecl⟩
      = .error (.errSpan 8
        "`external_type_specification` proxy type should use a struct with a single field to declare the external type (even if the external type is an enum)") :=
  ⟨(c10_misplaced_specification_attribute_errors baseCtxt emptySt none
      ⟨0, 7, { external_fn_specification := true }, .modDecl⟩ rfl).1 rfl rfl,
   ((c10_misplaced_specification_attribute_errors baseCtxt emptySt none
      ⟨0, 8, { external_type_specification := true, external := true }, .enumDecl⟩ rfl).2.1
      rfl rfl rfl).1 rfl⟩

theorem exceptBindOk {α β : Type} (e : Except Err α) (f : α → Except Err β) (b : β) :
    (e >>= f) = .ok b ↔ ∃ a, e = .ok a ∧ f a = .ok b := by
  cases e with
  | ok a => simp [exceptBind_ok]
  | error err => simp [exceptBind_err]

theorem updateModuleReveals_map_path (ms : List Module) (mp : Path) (funs : List Fun) :
    (updateModuleReveals ms mp funs).map Module.path = ms.map Module.path := by
  induction ms with
  | nil => rfl
  | cons m rest ih =>
    unfold updateModuleReveals
    by_cases hp : m.path = mp
    · simp [hp]
    · simp [hp, ih]

theorem check_item_fn_preserves (ctxt : Context) (st : St) (did : DefId) (kind : FunKindD)
    (vattrs : VerifierAttrs) (specTarget : Option DefId) (span : Span) (st2 : St)
    (h : check_item_fn ctxt st did kind vattrs specTarget span = .ok st2) :
    st2.vir.modules = st.vir.modules ∧ st2.ext.trait_id_set = st.ext.trait_id_set := by
  unfold check_item_fn at h
  repeat' split at h
  all_goals cases h
  all_goals exact ⟨rfl, rfl⟩

theorem handle_const_or_static_preserves (ctxt : Context) (st : St)
    (mp : Option (Option Path)) (item : Item) (st2 : St)
    (h : handle_const_or_static ctxt st mp item = .ok st2) :
    st2.vir.modules.map Module.path = st.vir.modules.map Module.path
    ∧ st2.ext.trait_id_set = st.ext.trait_id_set := by
  simp only [handle_const_or_static] at h
  repeat' split at h
  all_goals first
    | ((cases h) <;> first
        | exact ⟨rfl, rfl⟩
        | exact ⟨updateModuleReveals_map_path _ _ _, rfl⟩)
    | (rw [exceptBindOk] at h
       obtain ⟨a, ha, h⟩ := h
       first
        | (unfold check_item_const_or_static at h
           cases h
           exact ⟨rfl, rfl⟩)
        | (repeat' split at h
           all_goals (cases h) <;> first
            | exact ⟨rfl, rfl⟩
            | exact ⟨updateModuleReveals_map_path _ _ _, rfl⟩))

theorem checkImplItem_preserves (ctxt : Context) (item : Item)
    (tpta : Option (Path × List Ty)) (impl_path : Path) (st : St) (r : ImplItemRef)
    (st2 : St) (h : checkImplItem ctxt item tpta impl_path st r = .ok st2) :
    st2.vir.modules = st.vir.modules ∧ st2.ext.trait_id_set = st.ext.trait_id_set := by
  simp only [checkImplItem] at h
  repeat' split at h
  all_goals first
    | ((cases h) <;> exact ⟨rfl, rfl⟩)
    | exact check_item_fn_preserves _ _ _ _ _ _ _ _ h
    | (rw [exceptBindOk] at h
       obtain ⟨a, ha, h⟩ := h
       rw [exceptBindOk] at h
       obtain ⟨b, hb, h⟩ := h
       (cases h) <;> exact ⟨rfl, rfl⟩)

theorem StSame.rfl (a : St) : StSame a a := ⟨Eq.refl _, Eq.refl _⟩

theorem StSame.trans {a b c : St} (hab : StSame a b) (hbc : StSame b c) : StSame a c :=
  ⟨hbc.1.trans hab.1, hbc.2.trans hab.2⟩

theorem foldlM_preserves {σ α : Type} (P : σ → σ → Prop)
    (hrefl : ∀ s, P s s) (htrans : ∀ a b c, P a b → P b c → P a c)
    (f : σ → α → Except Err σ) (hf : ∀ s x s2, f s x = .ok s2 → P s s2) :
    ∀ (l : List α) (s s2 : σ), l.foldlM f s = .ok s2 → P s s2 := by
  intro l
  induction l with
  | nil =>
    intro s s2 h
    simp only [List.foldlM] at h
    cases h
    exact hrefl _
  | cons x rest ih =>
    intro s s2 h
    simp only [List.foldlM] at h
    rw [exceptBindOk] at h
    obtain ⟨s1, h1, h2⟩ := h
    exact htrans _ _ _ (hf s x s1 h1) (ih s1 s2 h2)

theorem check_item_impl_preserves (ctxt : Context) (st : St) (item : Item)
    (impll : ImplBlock) (modulePath : Path) (st2 : St)
    (h : check_item_impl ctxt st item impll modulePath = .ok st2) :
    StSame st st2 := by
  have hfoldP : ∀ (tpta : Option (Path × List Ty)) (ip : Path) (items : List ImplItemRef)
      (s s2 : St), items.foldlM (checkImplItem ctxt item tpta ip) s = .ok s2 →
      StSame s s2 :=
    fun tpta ip items s s2 hh => foldlM_preserves StSame StSame.rfl
      (fun _ _ _ hab hbc => hab.trans hbc)
      _ (fun s x s3 hs =>
          have hp := checkImplItem_preserves ctxt item tpta ip s x s3 hs
          ⟨by rw [hp.1], hp.2⟩) items s s2 hh
  unfold check_item_impl at h
  dsimp only at h
  by_cases h1 : item.vattrs.is_external = true
  · rw [if_pos h1] at h
    cases h
    exact StSame.rfl _
  · rw [if_neg h1] at h
    by_cases h2 : (impll.unsafety && impll.ofTrait.isNone) = true
    · rw [if_pos h2] at h
      cases h
    · rw [if_neg h2] at h
      cases hof : impll.ofTrait with
      | none =>
        rw [hof] at h
        simp only [exceptBind_ok] at h
        rw [if_neg Bool.false_ne_true] at h
        exact StSame.trans (StSame.rfl _) (hfoldP _ _ _ _ _ h)
      | some tr =>
        rw [hof] at h
        dsimp only at h
        rw [exceptBindOk] at h
        obtain ⟨ign, hign, h⟩ := h
        cases ign with
        | true =>
          rw [if_pos rfl] at h
          rw [exceptBindOk] at h
          obtain ⟨ign2, hign2, h⟩ := h
          cases h
          exact StSame.rfl _
        | false =>
          rw [if_neg Bool.false_ne_true] at h
          rw [exceptBindOk] at h
          obtain ⟨trip, htrip, h⟩ := h
          simp only [exceptBind_ok] at h
          have hmid := hfoldP _ _ _ _ _ h
          exact StSame.trans ⟨rfl, rfl⟩ hmid

theorem check_item_preserves (ctxt : Context) (st : St) (mp : Option (Option Path))
    (item : Item) (st2 : St) (h : check_item ctxt st mp item = .ok st2) :
    StSame st st2 := by
  unfold check_item at h
  dsimp only at h
  repeat' split at h
  all_goals first
    | ((cases h) <;> exact StSame.rfl _)
    | (have hp := check_item_fn_preserves _ _ _ _ _ _ _ _ h
       exact ⟨by rw [hp.1], hp.2⟩)
    | (exact check_item_impl_preserves _ _ _ _ _ _ h)
    | (exact handle_const_or_static_preserves _ _ _ _ _ h)
    | (unfold check_item_datatype at h
       (cases h) <;> exact ⟨rfl, rfl⟩)
    | (unfold translate_trait at h
       (cases h) <;> exact ⟨rfl, rfl⟩)

theorem checkItems_preserves (ctxt : Context) (m : ItemToModuleMap) (st : St)
    (crate : HirCrate) (st2 : St) (h : checkItems ctxt m st crate = .ok st2) :
    StSame st st2 := by
  unfold checkItems at h
  refine foldlM_preserves StSame StSame.rfl (fun _ _ _ a b => a.trans b) _ ?_ _ _ _ h
  intro s x s3 hs
  dsimp only at hs
  split at hs
  · cases hs
    exact StSame.rfl _
  · exact check_item_preserves _ _ _ _ _ hs

theorem has_type_id_eta (ctxt : Context) (ei : ExternalInfo) (d : DefId) :
    (ExternalInfo.has_type_id ctxt ei d).2
      = { ei with type_id_map := (ExternalInfo.has_type_id ctxt ei d).2.type_id_map } := by
  unfold ExternalInfo.has_type_id
  cases hc : assocGet ei.type_id_map d <;> rfl

theorem tyNodesKnown_eta (ctxt : Context) :
    ∀ (L : List Ty) (ei : ExternalInfo),
    (tyNodesKnown ctxt ei L).2
      = { ei with type_id_map := (tyNodesKnown ctxt ei L).2.type_id_map } := by
  intro L
  induction L with
  | nil => intro ei; rfl
  | cons t ts ih =>
    intro ei
    match t with
    | .adt d args =>
      rcases hb : (ExternalInfo.has_type_id ctxt ei d).1 with _ | _
      · have : tyNodesKnown ctxt ei (Ty.adt d args :: ts)
            = (false, (ExternalInfo.has_type_id ctxt ei d).2) := by
          simp only [tyNodesKnown]
          rw [← hb]
          simp [hb]
        rw [this]
        exact has_type_id_eta ctxt ei d
      · have hstep : tyNodesKnown ctxt ei (Ty.adt d args :: ts)
            = tyNodesKnown ctxt (ExternalInfo.has_type_id ctxt ei d).2 ts := by
          simp only [tyNodesKnown]
          rw [← hb]
          simp [hb]
        rw [hstep, ih, has_type_id_eta ctxt ei d]
    | .param n =>
      simpa [tyNodesKnown] using ih ei
    | .never =>
      simpa [tyNodesKnown] using ih ei
    | .prim recognized code =>
      rcases recognized with _ | _
      · simp [tyNodesKnown]
      · simpa [tyNodesKnown] using ih ei

theorem tyNodesKnown_trait_id_set (ctxt : Context) (L : List Ty) (ei : ExternalInfo) :
    (tyNodesKnown ctxt ei L).2.trait_id_set = ei.trait_id_set := by
  rw [tyNodesKnown_eta]

theorem harvestStep_parts (ctxt : Context) (krate : KrateX) (ei : ExternalInfo)
    (collected : List DefId) (i : DefId) :
    ((harvestStep ctxt (krate, ei, collected) i).1.modules = krate.modules
      ∧ (harvestStep ctxt (krate, ei, collected) i).1.traits = krate.traits)
    ∧ (harvestStep ctxt (krate, ei, collected) i).2.1.trait_id_set = ei.trait_id_set := by
  simp only [harvestStep]
  cases htr : ctxt.implTraitRef i with
  | none => exact ⟨⟨rfl, rfl⟩, rfl⟩
  | some pr =>
    obtain ⟨tdid, args⟩ := pr
    rcases h1 : mid_ty_filter_for_external_impls ctxt ei args with ⟨ok1, ei1⟩
    have h1set : ei1.trait_id_set = ei.trait_id_set := by
      have hh := tyNodesKnown_trait_id_set ctxt (Ty.walkListAux args) ei
      rw [show tyNodesKnown ctxt ei (Ty.walkListAux args) = (ok1, ei1) by
        simpa only [mid_ty_filter_for_external_impls] using h1] at hh
      exact hh
    dsimp only
    rw [h1]
    dsimp only
    cases ok1 with
    | false => exact ⟨⟨rfl, rfl⟩, h1set⟩
    | true =>
      rcases h2 : mid_generics_filter_for_external_impls ctxt i ei1 with ⟨ok2, ei2⟩
      have h2set : ei2.trait_id_set = ei.trait_id_set := by
        have hh := tyNodesKnown_trait_id_set ctxt
          (Ty.walkListAux (ctxt.implGenericsBoundTys i)) ei1
        rw [show tyNodesKnown ctxt ei1 (Ty.walkListAux (ctxt.implGenericsBoundTys i))
            = (ok2, ei2) by
          simpa only [mid_generics_filter_for_external_impls] using h2] at hh
        exact hh.trans h1set
      cases ok2 with
      | false => exact ⟨⟨rfl, rfl⟩, h2set⟩
      | true =>
        simp only [Bool.not_true, Bool.false_eq_true, if_false]
        cases hti : trait_impl_to_vir ctxt i (ctxt.defPath i).popSegment true with
        | error e => exact ⟨⟨rfl, rfl⟩, h2set⟩
        | ok v =>
          obtain ⟨tp, tys, ti⟩ := v
          exact ⟨⟨rfl, rfl⟩, h2set⟩

theorem harvestFold_parts (ctxt : Context) :
    ∀ (autos : List DefId) (krate : KrateX) (ei : ExternalInfo) (collected : List DefId),
    (autos.foldl (harvestStep ctxt) (krate, ei, collected)).1.modules = krate.modules
    ∧ (autos.foldl (harvestStep ctxt) (krate, ei, collected)).1.traits = krate.traits
    ∧ (autos.foldl (harvestStep ctxt) (krate, ei, collected)).2.1.trait_id_set
        = ei.trait_id_set := by
  intro autos
  induction autos with
  | nil => intro krate ei collected; exact ⟨rfl, rfl, rfl⟩
  | cons i rest ih =>
    intro krate ei collected
    have hfold : (i :: rest).foldl (harvestStep ctxt) (krate, ei, collected)
        = rest.foldl (harvestStep ctxt)
            ((harvestStep ctxt (krate, ei, collected) i).1,
             (harvestStep ctxt (krate, ei, collected) i).2.1,
             (harvestStep ctxt (krate, ei, collected) i).2.2) := rfl
    rw [hfold]
    obtain ⟨⟨hm, ht⟩, hs⟩ := harvestStep_parts ctxt krate ei collected i
    obtain ⟨im, it, is⟩ := ih (harvestStep ctxt (krate, ei, collected) i).1
      (harvestStep ctxt (krate, ei, collected) i).2.1
      (harvestStep ctxt (krate, ei, collected) i).2.2
    exact ⟨im.trans hm, it.trans ht, is.trans hs⟩

theorem reconcileGroup_krate (ctxt : Context) (tm : List TraitDecl)
    (collected : List DefId) (krate : KrateX) (g : SpecGroup) (k2 : KrateX)
    (h : reconcileGroup ctxt tm collected krate g = .ok k2) :
    k2.modules = krate.modules ∧ k2.traits = krate.traits := by
  unfold reconcileGroup at h
  cases htr : ctxt.implTraitRef g.implDefId with
  | none =>
    rw [htr] at h
    exact Except.noConfusion h
  | some pr =>
    obtain ⟨trait_did, args⟩ := pr
    rw [htr] at h
    dsimp only at h
    cases hfind : tm.find? (fun t => t.name == ctxt.defPath trait_did) with
    | none =>
      rw [hfind] at h
      dsimp only at h
      cases h
      exact ⟨rfl, rfl⟩
    | some traitt =>
      rw [hfind] at h
      dsimp only at h
      cases hfuns : g.funs with
      | nil =>
        rw [hfuns] at h
        exact Except.noConfusion h
      | cons f0 rest =>
        rw [hfuns] at h
        try dsimp only at h
        rw [exceptBindOk] at h
        obtain ⟨mh, hmh, h⟩ := h
        try dsimp only at h
        by_cases hat : traitt.assoc_typs_bounds > 0
        · rw [if_pos hat] at h
          exact Except.noConfusion h
        · rw [if_neg hat] at h
          cases hmiss : traitt.methods.find? (fun mp => !(mh.contains mp.lastSegment)) with
          | some missing =>
            rw [hmiss] at h
            exact Except.noConfusion h
          | none =>
            rw [hmiss] at h
            try dsimp only at h
            by_cases hcol : g.implDefId ∈ collected
            · rw [if_pos hcol] at h
              cases h
              exact ⟨rfl, rfl⟩
            · rw [if_neg hcol] at h
              rw [exceptBindOk] at h
              obtain ⟨trip, htrip, h⟩ := h
              obtain ⟨tp, tys, ti⟩ := trip
              try dsimp only at h
              cases h
              exact ⟨rfl, rfl⟩

theorem mem_foldl_setInsert : ∀ (l : List DefId) (xs : List DefId) (x : DefId),
    x ∈ xs → x ∈ l.foldl setInsert xs := by
  intro l
  induction l with
  | nil => intro xs x hx; exact hx
  | cons a rest ih =>
    intro xs x hx
    exact ih _ _ (mem_setInsert.mpr (Or.inr hx))

theorem collect_parts (ctxt : Context) (imported : List KrateX) (krate : KrateX)
    (ei : ExternalInfo) (k2 : KrateX) (ei2 : ExternalInfo)
    (hok : collect_external_trait_impls ctxt imported krate ei = .ok (k2, ei2)) :
    k2.modules = krate.modules
    ∧ ∀ x ∈ ei.trait_id_set, x ∈ ei2.trait_id_set := by
  simp only [collect_external_trait_impls, harvestImpls] at hok
  rw [exceptBindOk] at hok
  obtain ⟨gs, hgs, hok⟩ := hok
  rw [exceptBindOk] at hok
  obtain ⟨kr, hkr, hok⟩ := hok
  injection hok with hpair
  injection hpair with h1 h2
  subst h1
  subst h2
  constructor
  · have hrec := foldlM_preserves (fun (a b : KrateX) => b.modules = a.modules)
      (fun _ => rfl) (fun _ _ _ hab hbc => hbc.trans hab) _
      (fun s x s2 hs => (reconcileGroup_krate ctxt _ _ s x s2 hs).1) gs _ kr hkr
    rw [hrec]
    exact (harvestFold_parts ctxt _ krate _ []).1
  · intro x hx
    rw [(harvestFold_parts ctxt _ krate _ []).2.2]
    dsimp only
    apply mem_foldl_setInsert
    have := addKnownDatatypes_eta imported krate ei
    rw [this]
    exact hx

/-- C9: the known-trait-identity set starts out holding the six built-in
marker traits Sized, Copy, Unpin, Sync, Tuple and Send, and the pass only
ever grows it: every identity present initially is still present in the
final external bookkeeping returned by `crate_to_vir`. -/
theorem c9_builtin_marker_traits_persist (ctxt : Context) (imported : List KrateX)
    (crate : HirCrate) (k : KrateX) (m : ItemToModuleMap) (ei2 : ExternalInfo)
    (hok : crate_to_vir ctxt imported crate = .ok (k, m, ei2)) :
    (ctxt.langSized ∈ (initExternalInfo ctxt).trait_id_set
      ∧ ctxt.langCopy ∈ (initExternalInfo ctxt).trait_id_set
      ∧ ctxt.langUnpin ∈ (initExternalInfo ctxt).trait_id_set
      ∧ ctxt.langSync ∈ (initExternalInfo ctxt).trait_id_set
      ∧ ctxt.langTuple ∈ (initExternalInfo ctxt).trait_id_set
      ∧ ctxt.langSend ∈ (initExternalInfo ctxt).trait_id_set)
    ∧ (∀ x ∈ (initExternalInfo ctxt).trait_id_set, x ∈ ei2.trait_id_set) := by
  constructor
  · refine ⟨?_, ?_, ?_, ?_, ?_, ?_⟩ <;>
      simp [initExternalInfo, mem_setInsert]
  · intro x hx
    simp only [crate_to_vir] at hok
    rw [exceptBindOk] at hok
    obtain ⟨st1, hst1, hok⟩ := hok
    rw [exceptBindOk] at hok
    obtain ⟨pr, hpr, hok⟩ := hok
    obtain ⟨virF, eiF⟩ := pr
    try dsimp only at hok
    cases hok
    have hsame := checkItems_preserves _ _ _ _ _ hst1
    have hcol := collect_parts _ _ _ _ _ _ hpr
    apply hcol.2
    rw [hsame.2]
    exact hx

/-- C9, witness: the trivial compilation unit, run through `crate_to_vir`
with the base oracle. -/
theorem c9_builtin_marker_traits_persist_witness :
    (baseCtxt.langSized ∈ (initExternalInfo baseCtxt).trait_id_set
      ∧ baseCtxt.langCopy ∈ (initExternalInfo baseCtxt).trait_id_set
      ∧ baseCtxt.langUnpin ∈ (initExternalInfo baseCtxt).trait_id_set
      ∧ baseCtxt.langSync ∈ (initExternalInfo baseCtxt).trait_id_set
      ∧ baseCtxt.langTuple ∈ (initExternalInfo baseCtxt).trait_id_set
      ∧ baseCtxt.langSend ∈ (initExternalInfo baseCtxt).trait_id_set)
    ∧ (∀ x ∈ (initExternalInfo baseCtxt).trait_id_set, x ∈ c9Res.2.2.trait_id_set) :=
  c9_builtin_marker_traits_persist baseCtxt [] c9Crate c9Res.1 c9Res.2.1 c9Res.2.2 rfl

theorem mmExtend_not_mem : ∀ (kvs : List (DefId × Option Path)) (m : ItemToModuleMap)
    (d : DefId), d ∉ kvs.map Prod.fst → mmExtend m kvs d = m d := by
  intro kvs
  induction kvs with
  | nil => intro m d _; rfl
  | cons kv rest ih =>
    intro m d hd
    simp only [List.map_cons, List.mem_cons, not_or] at hd
    have hstep : mmExtend m (kv :: rest) = mmExtend (mmInsert m kv.1 kv.2) rest := rfl
    rw [hstep, ih _ _ hd.2]
    simp only [mmInsert, if_neg hd.1]

theorem mmExtend_const : ∀ (kvs : List (DefId × Option Path)) (m : ItemToModuleMap)
    (d : DefId) (v : Option Path),
    (∀ kv ∈ kvs, kv.2 = v) → d ∈ kvs.map Prod.fst → mmExtend m kvs d = some v := by
  intro kvs
  induction kvs with
  | nil => intro m d v _ hd; simp at hd
  | cons kv rest ih =>
    intro m d v hv hd
    have hstep : mmExtend m (kv :: rest) = mmExtend (mmInsert m kv.1 kv.2) rest := rfl
    rw [hstep]
    by_cases hr : d ∈ rest.map Prod.fst
    · exact ih _ _ _ (fun x hx => hv x (List.mem_cons_of_mem _ hx)) hr
    · rw [mmExtend_not_mem rest _ d hr]
      have hdk : d = kv.1 := by
        simp only [List.map_cons, List.mem_cons] at hd
        rcases hd with h | h
        · exact h
        · exact absurd h hr
      simp only [mmInsert, if_pos hdk]
      rw [hv kv (List.mem_cons_self _ _)]

theorem map_fst_pairs {α β γ : Type} (L : List α) (g : α → β) (f : α → γ) :
    ((L.map (fun i => (g i, f i))).map Prod.fst) = L.map g := by
  induction L with
  | nil => rfl
  | cons a l ih =>
    simp only [List.map_cons]
    rw [ih]

theorem preorder_eq (t : ItemTree) :
    t.preorder = t :: ItemTree.preorderList t.childrenOf := by
  obtain ⟨i, cs⟩ := t
  rfl

theorem preorderList_append (xs ys : List ItemTree) :
    ItemTree.preorderList (xs ++ ys)
      = ItemTree.preorderList xs ++ ItemTree.preorderList ys := by
  induction xs with
  | nil => rfl
  | cons t ts ih =>
    show t.preorder ++ ItemTree.preorderList (ts ++ ys)
        = (t.preorder ++ ItemTree.preorderList ts) ++ ItemTree.preorderList ys
    rw [ih, List.append_assoc]

mutual
theorem mem_visitModIds_of_mem_preorder (t u : ItemTree) (hu : u ∈ t.preorder)
    (d : DefId) (hd : d ∈ visitModIds u) : d ∈ visitModIds t := by
  obtain ⟨i, cs⟩ := t
  rcases List.mem_cons.mp
      (show u ∈ ItemTree.mk i cs :: ItemTree.preorderList cs from hu) with rfl | h2
  · exact hd
  · simp only [visitModIds, ItemTree.preorder, List.map_cons, List.mem_cons]
    exact Or.inr (mem_didsOf_of_mem_preorderList cs u h2 d hd)
theorem mem_didsOf_of_mem_preorderList (L : List ItemTree) (u : ItemTree)
    (hu : u ∈ ItemTree.preorderList L) (d : DefId) (hd : d ∈ visitModIds u) :
    d ∈ (ItemTree.preorderList L).map (fun n => n.itemOf.did) := by
  cases L with
  | nil => simp [ItemTree.preorderList] at hu
  | cons t ts =>
    rcases List.mem_append.mp
        (show u ∈ t.preorder ++ ItemTree.preorderList ts from hu) with h1 | h2
    · have hh := mem_visitModIds_of_mem_preorder t u h1 d hd
      show d ∈ (t.preorder ++ ItemTree.preorderList ts).map (fun n => n.itemOf.did)
      rw [List.map_append]
      exact List.mem_append_left _ hh
    · have hh := mem_didsOf_of_mem_preorderList ts u h2 d hd
      show d ∈ (t.preorder ++ ItemTree.preorderList ts).map (fun n => n.itemOf.did)
      rw [List.map_append]
      exact List.mem_append_right _ hh
end

theorem self_mem_preorderList (L : List ItemTree) (u : ItemTree) (hu : u ∈ L) :
    u ∈ ItemTree.preorderList L := by
  induction L with
  | nil => simp at hu
  | cons t ts ih =>
    rcases List.mem_cons.mp hu with rfl | h2
    · show u ∈ u.preorder ++ ItemTree.preorderList ts
      apply List.mem_append_left
      rw [preorder_eq]
      exact List.mem_cons_self _ _
    · show u ∈ t.preorder ++ ItemTree.preorderList ts
      exact List.mem_append_right _ (ih h2)

theorem mapModOwner_no_write (ctxt : Context) (acc : List Module × ItemToModuleMap)
    (t : ItemTree) (d : DefId) (hd : d ∉ visitModIds t) :
    (mapModOwner ctxt acc t).2 d = acc.2 d := by
  obtain ⟨mods, m⟩ := acc
  unfold mapModOwner
  dsimp only
  split
  · split
    · dsimp only
      apply mmExtend_not_mem
      rw [show (fun i => ((i : DefId), (none : Option Path)))
            = (fun i => (i, (fun _ => (none : Option Path)) i)) from rfl,
          map_fst_pairs, show (fun i => (i : DefId)) = id from rfl, List.map_id]
      exact hd
    · dsimp only
      apply mmExtend_not_mem
      rw [map_fst_pairs]
      intro hmem
      apply hd
      rcases List.mem_map.mp hmem with ⟨cc, hcc, hcd⟩
      subst hcd
      apply mem_visitModIds_of_mem_preorder t cc
      · rw [preorder_eq]
        exact List.mem_cons_of_mem _ (self_mem_preorderList _ _ hcc)
      · rw [visitModIds, preorder_eq]
        exact List.mem_cons_self _ _
  · split
    · dsimp only
      apply mmExtend_not_mem
      rw [show (fun i => ((i : DefId), (none : Option Path)))
            = (fun i => (i, (fun _ => (none : Option Path)) i)) from rfl,
          map_fst_pairs, show (fun i => (i : DefId)) = id from rfl, List.map_id]
      intro hmem
      apply hd
      exact List.drop_subset _ _ hmem
    · rfl

theorem mapModOwner_mods (ctxt : Context) (acc : List Module × ItemToModuleMap)
    (t : ItemTree) :
    ∃ extra, (mapModOwner ctxt acc t).1 = acc.1 ++ extra := by
  obtain ⟨mods, m⟩ := acc
  unfold mapModOwner
  dsimp only
  split
  · split
    · exact ⟨[], (List.append_nil _).symm⟩
    · exact ⟨[{ path := ctxt.defPath t.itemOf.did, reveals := none }], rfl⟩
  · split
    · exact ⟨[], (List.append_nil _).symm⟩
    · exact ⟨[], (List.append_nil _).symm⟩

theorem foldl_mapModOwner_no_write (ctxt : Context) :
    ∀ (L : List ItemTree) (acc : List Module × ItemToModuleMap) (d : DefId),
    (∀ t ∈ L, d ∉ visitModIds t) →
    ((L.foldl (mapModOwner ctxt) acc).2) d = acc.2 d := by
  intro L
  induction L with
  | nil => intro acc d _; rfl
  | cons t ts ih =>
    intro acc d hd
    have hstep : (t :: ts).foldl (mapModOwner ctxt) acc
        = ts.foldl (mapModOwner ctxt) (mapModOwner ctxt acc t) := rfl
    rw [hstep, ih _ _ (fun u hu => hd u (List.mem_cons_of_mem _ hu))]
    exact mapModOwner_no_write ctxt acc t d (hd t (List.mem_cons_self _ _))

theorem foldl_mapModOwner_mods (ctxt : Context) :
    ∀ (L : List ItemTree) (acc : List Module × ItemToModuleMap),
    ∃ extra, ((L.foldl (mapModOwner ctxt) acc).1) = acc.1 ++ extra := by
  intro L
  induction L with
  | nil => intro acc; exact ⟨[], (List.append_nil _).symm⟩
  | cons t ts ih =>
    intro acc
    obtain ⟨e1, he1⟩ := mapModOwner_mods ctxt acc t
    obtain ⟨e2, he2⟩ := ih (mapModOwner ctxt acc t)
    exact ⟨e1 ++ e2, by rw [List.foldl_cons, he2, he1, List.append_assoc]⟩

theorem fold_child_value (ctxt : Context) (A B : List ItemTree) (c : ItemTree)
    (acc : List Module × ItemToModuleMap)
    (F2 : c.itemOf.did ∉ (ItemTree.preorderList A).map (fun t => t.itemOf.did))
    (F3 : c.itemOf.did ∉ (ItemTree.preorderList c.childrenOf).map (fun t => t.itemOf.did))
    (F4 : c.itemOf.did ∉ (ItemTree.preorderList B).map (fun t => t.itemOf.did)) :
    (((ItemTree.preorderList A ++ (c.preorder ++ ItemTree.preorderList B)).foldl
        (mapModOwner ctxt) acc).2) c.itemOf.did
      = if c.itemOf.kind.isModDecl && c.itemOf.vattrs.external then some none
        else acc.2 c.itemOf.did := by
  have hB : ∀ t ∈ ItemTree.preorderList B, c.itemOf.did ∉ visitModIds t :=
    fun t ht hdt => F4 (mem_didsOf_of_mem_preorderList B t ht _ hdt)
  have hC : ∀ t ∈ ItemTree.preorderList c.childrenOf, c.itemOf.did ∉ visitModIds t :=
    fun t ht hdt => F3 (mem_didsOf_of_mem_preorderList _ t ht _ hdt)
  have hA : ∀ t ∈ ItemTree.preorderList A, c.itemOf.did ∉ visitModIds t :=
    fun t ht hdt => F2 (mem_didsOf_of_mem_preorderList _ t ht _ hdt)
  have hvis : visitModIds c
      = c.itemOf.did :: (ItemTree.preorderList c.childrenOf).map (fun n => n.itemOf.did) := by
    rw [visitModIds, preorder_eq]
    rfl
  have hdmem : c.itemOf.did ∈ visitModIds c := by
    rw [hvis]
    exact List.mem_cons_self _ _
  have hF3c : c.itemOf.did ∉ c.childrenOf.map (fun u => u.itemOf.did) := by
    intro hmem
    apply F3
    rcases List.mem_map.mp hmem with ⟨u, hu, hud⟩
    exact hud ▸ List.mem_map_of_mem _ (self_mem_preorderList _ _ hu)
  rw [List.foldl_append, List.foldl_append, preorder_eq c, List.foldl_cons]
  rw [foldl_mapModOwner_no_write ctxt _ _ _ hB, foldl_mapModOwner_no_write ctxt _ _ _ hC]
  have hAval := foldl_mapModOwner_no_write ctxt _ acc _ hA
  rcases haccA : (ItemTree.preorderList A).foldl (mapModOwner ctxt) acc with ⟨modsA, mA⟩
  rw [haccA] at hAval
  unfold mapModOwner
  dsimp only
  cases hkind : c.itemOf.kind
  case modDecl =>
    dsimp only
    simp only [ItemKind.isModDecl, Bool.true_and]
    by_cases hx : c.itemOf.vattrs.external = true
    · rw [if_pos hx, if_pos hx]
      dsimp only
      apply mmExtend_const
      · intro kv hkv
        rcases List.mem_map.mp hkv with ⟨i, hi, rfl⟩
        rfl
      · rw [show (fun i => ((i : DefId), (none : Option Path)))
              = (fun i => (i, (fun _ => (none : Option Path)) i)) from rfl,
            map_fst_pairs, show (fun i => (i : DefId)) = id from rfl, List.map_id]
        exact hdmem
    · rw [if_neg hx, if_neg hx]
      dsimp only
      rw [mmExtend_not_mem]
      · exact hAval
      · rw [map_fst_pairs]
        exact hF3c
  all_goals
    (dsimp only
     simp only [ItemKind.isModDecl, Bool.false_and]
     rw [if_neg Bool.false_ne_true]
     by_cases hx : (c.itemOf.vattrs.external || c.itemOf.vattrs.external_body) = true
     · rw [if_pos hx]
       dsimp only
       rw [mmExtend_not_mem]
       · exact hAval
       · rw [show (fun i => ((i : DefId), (none : Option Path)))
               = (fun i => (i, (fun _ => (none : Option Path)) i)) from rfl,
             map_fst_pairs, show (fun i => (i : DefId)) = id from rfl, List.map_id]
         rw [hvis]
         exact F3
     · rw [if_neg hx]
       exact hAval)

theorem buildItemToModule_mods (ctxt : Context) (crate : HirCrate) :
    ∃ rest, (buildItemToModule ctxt crate).1
      = { path := ctxt.defPath crate.rootDefId, reveals := none } :: rest := by
  unfold buildItemToModule
  dsimp only
  obtain ⟨extra, hextra⟩ := foldl_mapModOwner_mods ctxt
    (ItemTree.preorderList crate.rootItems)
    ([{ path := ctxt.defPath crate.rootDefId, reveals := none }],
     mmExtend (fun _ => none)
       (crate.rootItems.map (fun c => (c.itemOf.did, some (ctxt.defPath crate.rootDefId)))))
  exact ⟨extra, hextra⟩

theorem buildItemToModule_child (ctxt : Context) (crate : HirCrate) (c : ItemTree)
    (hc : c ∈ crate.rootItems)
    (hnd : ((ItemTree.preorderList crate.rootItems).map (fun t => t.itemOf.did)).Nodup) :
    (buildItemToModule ctxt crate).2 c.itemOf.did
      = if c.itemOf.kind.isModDecl && c.itemOf.vattrs.external then some none
        else some (some (ctxt.defPath crate.rootDefId)) := by
  obtain ⟨A, B, hAB⟩ := List.append_of_mem hc
  have hP : ItemTree.preorderList crate.rootItems
      = ItemTree.preorderList A ++ (c.preorder ++ ItemTree.preorderList B) := by
    rw [hAB, preorderList_append]
    rfl
  rw [hP, List.map_append, List.map_append] at hnd
  obtain ⟨hndA, hndCB, hdisjA⟩ := List.nodup_append.mp hnd
  obtain ⟨hndC, hndB, hdisjCB⟩ := List.nodup_append.mp hndCB
  have hd_mem_C : c.itemOf.did ∈ (c.preorder).map (fun t => t.itemOf.did) :=
    List.mem_map_of_mem _ (by rw [preorder_eq]; exact List.mem_cons_self _ _)
  have F2 : c.itemOf.did ∉ (ItemTree.preorderList A).map (fun t => t.itemOf.did) :=
    fun h => hdisjA h (List.mem_append_left _ hd_mem_C)
  have F4 : c.itemOf.did ∉ (ItemTree.preorderList B).map (fun t => t.itemOf.did) :=
    fun h => hdisjCB hd_mem_C h
  have F3 : c.itemOf.did ∉ (ItemTree.preorderList c.childrenOf).map
      (fun t => t.itemOf.did) := by
    rw [preorder_eq, List.map_cons] at hndC
    exact (List.nodup_cons.mp hndC).1
  unfold buildItemToModule
  dsimp only
  rw [hAB]
  rw [show ItemTree.preorderList (A ++ c :: B)
      = ItemTree.preorderList A ++ (c.preorder ++ ItemTree.preorderList B) from by
    rw [preorderList_append]
    rfl]
  rw [fold_child_value ctxt A B c _ F2 F3 F4]
  dsimp only
  have hinitval : mmExtend (fun _ => none)
      ((A ++ c :: B).map (fun u => (u.itemOf.did, some (ctxt.defPath crate.rootDefId))))
      c.itemOf.did = some (some (ctxt.defPath crate.rootDefId)) := by
    apply mmExtend_const
    · intro kv hkv
      rcases List.mem_map.mp hkv with ⟨u, hu, rfl⟩
      rfl
    · rw [map_fst_pairs]
      exact List.mem_map_of_mem _ (List.mem_append_right _ (List.mem_cons_self _ _))
  rw [hinitval]

/-- C8, amended: the root container is always registered as a module (head
of the modules list, which is therefore never empty), and every immediate
child declaration of the root is mapped to `Some(root path)` — except an
immediate child that is itself an external-marked module, whose own owner
visit remaps it to `None` (map entry `Some(None)`). -/
theorem c8_root_module_always_registered (ctxt : Context) (imported : List KrateX)
    (crate : HirCrate) (k : KrateX) (m : ItemToModuleMap) (ei2 : ExternalInfo)
    (hok : crate_to_vir ctxt imported crate = .ok (k, m, ei2))
    (hnd : ((ItemTree.preorderList crate.rootItems).map (fun t => t.itemOf.did)).Nodup) :
    k.modules ≠ []
    ∧ (k.modules.map Module.path).head? = some (ctxt.defPath crate.rootDefId)
    ∧ ∀ c ∈ crate.rootItems,
        m c.itemOf.did
          = if c.itemOf.kind.isModDecl && c.itemOf.vattrs.external then some none
            else some (some (ctxt.defPath crate.rootDefId)) := by
  simp only [crate_to_vir] at hok
  rw [exceptBindOk] at hok
  obtain ⟨st1, hst1, hok⟩ := hok
  rw [exceptBindOk] at hok
  obtain ⟨pr, hpr, hok⟩ := hok
  obtain ⟨virF, eiF⟩ := pr
  try dsimp only at hok
  cases hok
  have hsame := checkItems_preserves _ _ _ _ _ hst1
  have hcol := collect_parts _ _ _ _ _ _ hpr
  obtain ⟨rest, hrest⟩ := buildItemToModule_mods ctxt crate
  have hmap : k.modules.map Module.path
      = ctxt.defPath crate.rootDefId :: rest.map Module.path := by
    rw [hcol.1]
    dsimp only
    rw [hsame.1]
    dsimp only
    rw [hrest]
    rfl
  refine ⟨?_, ?_, ?_⟩
  · intro hemp
    rw [hemp] at hmap
    exact List.noConfusion hmap
  · rw [hmap]
    rfl
  · intro c hc
    exact buildItemToModule_child ctxt crate c hc hnd

/-- C8 (amended), witness: the unit whose only top-level item is an
external module still registers the root module, and that child's map
entry is `Some(None)`. -/
theorem c8_root_module_always_registered_witness :
    c8Res.1.modules ≠ []
    ∧ (c8Res.1.modules.map Module.path).head? = some (c1Ctxt.defPath c8Crate.rootDefId)
    ∧ ∀ c ∈ c8Crate.rootItems,
        c8Res.2.1 c.itemOf.did
          = if c.itemOf.kind.isModDecl && c.itemOf.vattrs.external then some none
            else some (some (c1Ctxt.defPath c8Crate.rootDefId)) :=
  c8_root_module_always_registered c1Ctxt [] c8Crate c8Res.1 c8Res.2.1 c8Res.2.2
    rfl (by decide)

end Verus


